import Mathlib

/-!
# Key and mouse bindings of hermit (src/keybindings.c)

A shallow embedding of the binding registries, the descriptor parser and the
input dispatcher of `src/src/keybindings.c`, followed by theorems about them.

Conventions of the embedding

* A C string (`const gchar*`) is a `List Char`; a nullable one is an `Option`.
* A `GArray` is a `List`: `g_array_append_val` appends at the end,
  `g_array_remove_index` erases one index and keeps the order of the rest.
* `guint` values are `Nat`, `gint` values are `Int`.
* The global `configs`, the Lua registry of callback references and the trace of
  callbacks run by `hermit_lua_dofunction` are gathered in one explicit `World`.
* GDK/X11 services whose tables are not part of the repository
  (`gdk_keyval_from_name`, `gdk_keyval_to_lower`, `XKeysymToKeycode`) are the
  fields of a `Platform` parameter.
-/

namespace Hermit

/-! ## Constants of the GDK headers -/

/-- GDK_NOTHING of `GdkEventType`, also used by the source as failure sentinel. -/
def GDK_NOTHING : Int := -1
/-- GDK_BUTTON_PRESS of `GdkEventType`. -/
def GDK_BUTTON_PRESS : Int := 4
/-- GDK_2BUTTON_PRESS of `GdkEventType`. -/
def GDK_2BUTTON_PRESS : Int := 5
/-- GDK_SHIFT_MASK of `GdkModifierType`. -/
def GDK_SHIFT_MASK : Nat := 1
/-- GDK_CONTROL_MASK of `GdkModifierType`. -/
def GDK_CONTROL_MASK : Nat := 4
/-- GDK_MOD1_MASK of `GdkModifierType`. -/
def GDK_MOD1_MASK : Nat := 8
/-- GDK_SUPER_MASK of `GdkModifierType`. -/
def GDK_SUPER_MASK : Nat := 67108864
/-- GDK_HYPER_MASK of `GdkModifierType`. -/
def GDK_HYPER_MASK : Nat := 134217728
/-- GDK_META_MASK of `GdkModifierType`. -/
def GDK_META_MASK : Nat := 268435456
/-- GDK_KEY_VoidSymbol, the result of `gdk_keyval_from_name` for an unknown name. -/
def GDK_KEY_VoidSymbol : Nat := 16777215

/-! ## Data model -/

/-- The platform services called by the source. -/
structure Platform where
  /-- Name to key symbol; `GDK_KEY_VoidSymbol` when the name is unknown. -/
  gdk_keyval_from_name : List Char → Nat
  /-- Lowercase fold of a key symbol. -/
  gdk_keyval_to_lower : Nat → Nat
  /-- Key symbol to hardware key code (on the display `disp`). -/
  XKeysymToKeycode : Nat → Nat

/-- The `struct KeyWithState` (keybindings.h, not under src/), with the fields the
parser writes and the dispatcher reads. -/
structure KeyWithState where
  state : Nat
  keyval : Nat
  deriving DecidableEq, Repr

/-- The `struct KeyBinding` stored in `configs.key_bindings`, with the fields the
source reads and writes. -/
structure KeyBinding where
  name : List Char
  kws : KeyWithState
  keycode : Nat
  lua_callback : Int
  deriving DecidableEq, Repr

/-- The `struct MouseBinding` stored in `configs.mouse_bindings`, with the fields the
source reads and writes. -/
structure MouseBinding where
  type : Int
  lua_callback : Int
  deriving DecidableEq, Repr

/-- Modelled from the spec: the enumeration of `configs.kb_policy` (configs.h, not
under src/) has two mutually exclusive modes, matched by the source under the names
`HermitKbUseKeycode` and `HermitKbUseKeysym`; the field may also hold an unknown or
misconfigured value, which the `default:` branch of `hermit_key_event` receives. -/
inductive HermitKbPolicy where
  | HermitKbUseKeycode
  | HermitKbUseKeysym
  | other (raw : Int)
  deriving DecidableEq, Repr

/-- The fields of the global `configs` used by keybindings.c. -/
structure Configs where
  key_bindings : List KeyBinding
  mouse_bindings : List MouseBinding
  kb_policy : HermitKbPolicy
  deriving DecidableEq, Repr

/-- The program state: `configs`, the callback references released so far (in
order, one entry per release) and the callbacks run so far (in order). -/
structure World where
  configs : Configs
  released : List Int
  invoked : List Int
  deriving DecidableEq, Repr

/-- The fields of `GdkEventKey` read by the dispatcher. -/
structure GdkEventKey where
  state : Nat
  keyval : Nat
  hardware_keycode : Nat
  deriving DecidableEq, Repr

/-- The field of `GdkEventButton` read by the dispatcher. -/
structure GdkEventButton where
  type : Int
  deriving DecidableEq, Repr

/-- One row of `hermit_modifiers`. -/
structure HermitModifier where
  name : List Char
  state : Nat
  deriving DecidableEq, Repr

/-- One row of `hermit_mouse_events`. -/
structure HermitMouseEvent where
  name : List Char
  type : Int
  deriving DecidableEq, Repr

/-- The table `hermit_modifiers`. -/
def hermit_modifiers : List HermitModifier :=
  [ ⟨['A', 'l', 't'], GDK_MOD1_MASK⟩,
    ⟨['C', 't', 'r', 'l'], GDK_CONTROL_MASK⟩,
    ⟨['S', 'h', 'i', 'f', 't'], GDK_SHIFT_MASK⟩,
    ⟨['M', 'e', 't', 'a'], GDK_META_MASK⟩,
    ⟨['S', 'u', 'p', 'e', 'r'], GDK_SUPER_MASK⟩,
    ⟨['H', 'y', 'p', 'e', 'r'], GDK_HYPER_MASK⟩ ]

/-- The size `HermitModsSz` of the modifier table. -/
def HermitModsSz : Nat := hermit_modifiers.length

/-- The table `hermit_mouse_events`. -/
def hermit_mouse_events : List HermitMouseEvent :=
  [ ⟨['D', 'o', 'u', 'b', 'l', 'e', 'C', 'l', 'i', 'c', 'k'], GDK_2BUTTON_PRESS⟩ ]

/-! ## Callback references -/

/-- Modelled from the spec: `hermit_lua_unref` (lua_api.c, not under src/) is the
scripting collaborator's `releaseCallback(handle)`; the release is recorded. -/
def hermit_lua_unref (w : World) (lua_callback : Int) : World :=
  { w with released := w.released ++ [lua_callback] }

/-- Modelled from the spec: `hermit_lua_dofunction` (lua_api.c, not under src/) is
the scripting collaborator's `invokeCallback(handle)`; the call is recorded. -/
def hermit_lua_dofunction (w : World) (lua_callback : Int) : World :=
  { w with invoked := w.invoked ++ [lua_callback] }

/-! ## Parser -/

/-- The inner `for (; i<HermitModsSz; ++i)` of `get_modifier_state`, run on the rows
of the table from index `i` on: at the first row whose name is a prefix of `token`
(`strncmp` over the length of the name) it stops with that index, the row's mask and
`step` set to the length of the name; past the last row it leaves `step = 0`. -/
def get_modifier_state_scan (token : List Char) :
    List HermitModifier → Nat → Nat × Nat × Nat
  | [], i => (i, 0, 0)
  | m :: rest, i =>
    if m.name.isPrefixOf token then (i, m.state, m.name.length)
    else get_modifier_state_scan token rest (i + 1)

/-- The `while (strlen(token) > 0)` loop of `get_modifier_state`; the table index
`i` and the accumulated `state` are carried from one round to the next. The first
argument bounds the number of rounds. -/
def get_modifier_state_loop : Nat → List Char → Nat → Nat → Int
  | 0, _, _, _ => GDK_NOTHING
  | fuel + 1, token, i, state =>
    if token.length > 0 then
      match get_modifier_state_scan token (hermit_modifiers.drop i) i with
      | (j, mask, step) =>
        if step = 0 then GDK_NOTHING
        else get_modifier_state_loop fuel (token.drop step) j (state ||| mask)
    else if state = 0 then GDK_NOTHING
    else (state : Int)

/-- The function `get_modifier_state`. Every round of its loop removes at least one
character of the token, so `strlen(token) + 1` rounds are enough. -/
def get_modifier_state (token : Option (List Char)) : Int :=
  match token with
  | none => GDK_NOTHING
  | some t => get_modifier_state_loop (t.length + 1) t 0 0

/-- The call `g_strsplit(string, "-", 2)` of GLib: no token for the empty string, the
string itself when it has no '-', otherwise the text before the first '-' and the
text after it. -/
def g_strsplit (string : List Char) : List (List Char) :=
  if string = [] then []
  else
    match string.span (fun c => c != '-') with
    | (before, []) => [before]
    | (before, _ :: after) => [before, after]

/-- The function `hermit_parse_keys_str`: the return code and the contents of
`*kws` after the call. -/
def hermit_parse_keys_str (P : Platform) (keybinding : List Char)
    (kws : KeyWithState) : Int × KeyWithState :=
  let tokens := g_strsplit keybinding
  match tokens[0]? with
  | none => (-1, kws)
  | some t0 =>
    let modifier : Option (List Char) :=
      match tokens[1]? with
      | none => none
      | some _ => some t0
    let key : List Char :=
      match tokens[1]? with
      | none => t0
      | some t1 => t1
    let tmp_state : Int :=
      match modifier with
      | none => 0
      | some m => get_modifier_state (some m)
    if modifier.isSome ∧ tmp_state = GDK_NOTHING then (-1, kws)
    else
      let tmp_keyval := P.gdk_keyval_from_name key
      if tmp_keyval = GDK_KEY_VoidSymbol then (-1, kws)
      else (0, { state := tmp_state.toNat, keyval := P.gdk_keyval_to_lower tmp_keyval })

/-! ## Registries -/

/-- The loop of `get_kb_index` over the bindings from index `i` on. -/
def get_kb_index_from (name : List Char) : List KeyBinding → Nat → Int
  | [], _ => -1
  | kb :: rest, i =>
    if kb.name = name then (i : Int) else get_kb_index_from name rest (i + 1)

/-- The function `get_kb_index`. -/
def get_kb_index (c : Configs) (name : List Char) : Int :=
  get_kb_index_from name c.key_bindings 0

/-- The loop of `get_mouse_event_type` over the rows of the table. -/
def get_mouse_event_type_from (event_name : List Char) : List HermitMouseEvent → Int
  | [] => GDK_NOTHING
  | e :: rest =>
    if event_name = e.name then e.type else get_mouse_event_type_from event_name rest

/-- The function `get_mouse_event_type`. -/
def get_mouse_event_type (event_name : Option (List Char)) : Int :=
  match event_name with
  | none => GDK_NOTHING
  | some n => get_mouse_event_type_from n hermit_mouse_events

/-- The loop of `get_mb_index` over the bindings from index `i` on. -/
def get_mb_index_from (type : Int) : List MouseBinding → Nat → Int
  | [], _ => -1
  | mb :: rest, i =>
    if type = mb.type then (i : Int) else get_mb_index_from type rest (i + 1)

/-- The function `get_mb_index`. -/
def get_mb_index (c : Configs) (type : Int) : Int :=
  get_mb_index_from type c.mouse_bindings 0

/-- The function `hermit_keys_unbind`. -/
def hermit_keys_unbind (w : World) (keybinding : List Char) : World :=
  let kb_index := get_kb_index w.configs keybinding
  if kb_index < 0 then w
  else
    match w.configs.key_bindings[kb_index.toNat]? with
    | none => w
    | some kb =>
      let w1 := hermit_lua_unref w kb.lua_callback
      { w1 with configs :=
          { w1.configs with
            key_bindings := w1.configs.key_bindings.eraseIdx kb_index.toNat } }

/-- The function `hermit_keys_bind`. -/
def hermit_keys_bind (P : Platform) (w : World) (keybinding : List Char)
    (lua_callback : Int) : World :=
  let parsed := hermit_parse_keys_str P keybinding { state := 0, keyval := 0 }
  if parsed.1 < 0 then w
  else
    let kws := parsed.2
    let kb_index := get_kb_index w.configs keybinding
    if kb_index < 0 then
      let kb : KeyBinding :=
        { name := keybinding, kws := kws,
          keycode := P.XKeysymToKeycode kws.keyval, lua_callback := lua_callback }
      { w with configs :=
          { w.configs with key_bindings := w.configs.key_bindings ++ [kb] } }
    else
      match w.configs.key_bindings[kb_index.toNat]? with
      | none => w
      | some kb =>
        let w1 := hermit_lua_unref w kb.lua_callback
        let kb1 : KeyBinding :=
          { kb with kws := kws, keycode := P.XKeysymToKeycode kws.keyval,
                    lua_callback := lua_callback }
        { w1 with configs :=
            { w1.configs with
              key_bindings := w1.configs.key_bindings.set kb_index.toNat kb1 } }

/-- The function `hermit_mouse_bind`. -/
def hermit_mouse_bind (w : World) (mouse_event : List Char) (lua_callback : Int) :
    World :=
  let type := get_mouse_event_type (some mouse_event)
  if type = GDK_NOTHING then w
  else
    let mb_index := get_mb_index w.configs type
    if mb_index < 0 then
      let mb : MouseBinding := { type := type, lua_callback := lua_callback }
      { w with configs :=
          { w.configs with mouse_bindings := w.configs.mouse_bindings ++ [mb] } }
    else
      match w.configs.mouse_bindings[mb_index.toNat]? with
      | none => w
      | some mb =>
        let w1 := hermit_lua_unref w mb.lua_callback
        let mb1 : MouseBinding := { mb with type := type, lua_callback := lua_callback }
        { w1 with configs :=
            { w1.configs with
              mouse_bindings := w1.configs.mouse_bindings.set mb_index.toNat mb1 } }

/-- The function `hermit_mouse_unbind`. -/
def hermit_mouse_unbind (w : World) (mouse_event : List Char) : World :=
  let type := get_mouse_event_type (some mouse_event)
  if type = GDK_NOTHING then w
  else
    let mb_index := get_mb_index w.configs type
    if mb_index < 0 then w
    else
      match w.configs.mouse_bindings[mb_index.toNat]? with
      | none => w
      | some mb =>
        let w1 := hermit_lua_unref w mb.lua_callback
        { w1 with configs :=
            { w1.configs with
              mouse_bindings := w1.configs.mouse_bindings.eraseIdx mb_index.toNat } }

/-! ## Dispatcher -/

/-- The loop of `hermit_key_press_use_keycode` over the remaining bindings. -/
def hermit_key_press_use_keycode_from (w : World) (event : GdkEventKey) :
    List KeyBinding → Bool × World
  | [] => (false, w)
  | kb :: rest =>
    if event.state &&& kb.kws.state = kb.kws.state then
      if event.hardware_keycode = kb.keycode then
        (true, hermit_lua_dofunction w kb.lua_callback)
      else hermit_key_press_use_keycode_from w event rest
    else hermit_key_press_use_keycode_from w event rest

/-- The function `hermit_key_press_use_keycode`. -/
def hermit_key_press_use_keycode (w : World) (event : GdkEventKey) : Bool × World :=
  hermit_key_press_use_keycode_from w event w.configs.key_bindings

/-- The loop of `hermit_key_press_use_keysym` over the remaining bindings. -/
def hermit_key_press_use_keysym_from (P : Platform) (w : World) (event : GdkEventKey) :
    List KeyBinding → Bool × World
  | [] => (false, w)
  | kb :: rest =>
    if event.state &&& kb.kws.state = kb.kws.state then
      if P.gdk_keyval_to_lower event.keyval = kb.kws.keyval then
        (true, hermit_lua_dofunction w kb.lua_callback)
      else hermit_key_press_use_keysym_from P w event rest
    else hermit_key_press_use_keysym_from P w event rest

/-- The function `hermit_key_press_use_keysym`. -/
def hermit_key_press_use_keysym (P : Platform) (w : World) (event : GdkEventKey) :
    Bool × World :=
  hermit_key_press_use_keysym_from P w event w.configs.key_bindings

/-- The function `hermit_key_event`. -/
def hermit_key_event (P : Platform) (w : World) (event : GdkEventKey) : Bool × World :=
  match w.configs.kb_policy with
  | .HermitKbUseKeycode => hermit_key_press_use_keycode w event
  | .HermitKbUseKeysym => hermit_key_press_use_keysym P w event
  | .other _ => (false, w)

/-- The loop of `hermit_mouse_event` over the remaining bindings. -/
def hermit_mouse_event_from (event : GdkEventButton) : List MouseBinding → World → World
  | [], w => w
  | kb :: rest, w =>
    if Int.land event.type kb.type ≠ 0 then
      hermit_mouse_event_from event rest (hermit_lua_dofunction w kb.lua_callback)
    else hermit_mouse_event_from event rest w

/-- The function `hermit_mouse_event`. -/
def hermit_mouse_event (w : World) (event : GdkEventButton) : Bool × World :=
  (false, hermit_mouse_event_from event w.configs.mouse_bindings w)

/-! ## Default bindings -/

/-- The function `hermit_keys_set_defaults`. Each `ADD_DEFAULT_KEYBINDING` and
`ADD_DEFAULT_MOUSEBINDING` takes a reference to a Lua global (`lua_getglobal`, then
`luaL_ref`) and binds it; `luaL_ref k name` is the reference returned by the Lua
library for the `k`-th of these seven requests, made for the global `name`.
`XOpenDisplay` sets the display read by `XKeysymToKeycode` and `hermit_keys_trace`
only prints. -/
def hermit_keys_set_defaults (P : Platform) (luaL_ref : Nat → List Char → Int)
    (w : World) : World :=
  let w1 := hermit_keys_bind P w ['A', 'l', 't', '-', 'L', 'e', 'f', 't']
    (luaL_ref 0 ['p', 'r', 'e', 'v', 'T', 'a', 'b'])
  let w2 := hermit_keys_bind P w1 ['A', 'l', 't', '-', 'R', 'i', 'g', 'h', 't']
    (luaL_ref 1 ['n', 'e', 'x', 't', 'T', 'a', 'b'])
  let w3 := hermit_keys_bind P w2 ['C', 't', 'r', 'l', '-', 't']
    (luaL_ref 2 ['o', 'p', 'e', 'n', 'T', 'a', 'b'])
  let w4 := hermit_keys_bind P w3 ['C', 't', 'r', 'l', 'S', 'h', 'i', 'f', 't', '-', 'w']
    (luaL_ref 3 ['c', 'l', 'o', 's', 'e', 'T', 'a', 'b'])
  let w5 := hermit_keys_bind P w4 ['C', 't', 'r', 'l', '-', 'I', 'n', 's', 'e', 'r', 't']
    (luaL_ref 4 ['c', 'o', 'p', 'y'])
  let w6 := hermit_keys_bind P w5 ['S', 'h', 'i', 'f', 't', '-', 'I', 'n', 's', 'e', 'r', 't']
    (luaL_ref 5 ['p', 'a', 's', 't', 'e'])
  hermit_mouse_bind w6 ['D', 'o', 'u', 'b', 'l', 'e', 'C', 'l', 'i', 'c', 'k']
    (luaL_ref 6 ['o', 'p', 'e', 'n', 'T', 'a', 'b'])

/-! ## A small platform for concrete runs -/

/-- A key-name table with the names `t`, `T`, `w` and `Left`. -/
def demoPlatform : Platform where
  gdk_keyval_from_name := fun n =>
    if n = ['t'] then 116
    else if n = ['T'] then 84
    else if n = ['w'] then 119
    else if n = ['L', 'e', 'f', 't'] then 65361
    else GDK_KEY_VoidSymbol
  gdk_keyval_to_lower := fun k => if 65 ≤ k ∧ k ≤ 90 then k + 32 else k
  XKeysymToKeycode := fun k =>
    if k = 116 then 28 else if k = 119 then 25 else if k = 65361 then 113 else 0

/-- The state before any binding is made, with the given policy. -/
def emptyWorld (policy : HermitKbPolicy) : World :=
  { configs := { key_bindings := [], mouse_bindings := [], kb_policy := policy },
    released := [], invoked := [] }

/-- The state with the given policy and key bindings and nothing else. -/
def worldOf (policy : HermitKbPolicy) (kbs : List KeyBinding) : World :=
  { configs := { key_bindings := kbs, mouse_bindings := [], kb_policy := policy },
    released := [], invoked := [] }

/-- Two bindings that both match a Ctrl+t key press: one requires Ctrl, registered
first with callback 11, the other requires no modifier, with callback 22. -/
def overlapBindings : List KeyBinding :=
  [ { name := ['C', 't', 'r', 'l', '-', 't'], kws := { state := GDK_CONTROL_MASK, keyval := 116 },
      keycode := 28, lua_callback := 11 },
    { name := ['t'], kws := { state := 0, keyval := 116 }, keycode := 28, lua_callback := 22 } ]

/-- A press of the key t (hardware code 28) with Ctrl held. -/
def ctrl_t_event : GdkEventKey :=
  { state := GDK_CONTROL_MASK, keyval := 116, hardware_keycode := 28 }

/-- The binding made by "Ctrl-t" with callback 11 on the platform `demoPlatform`. -/
def ctrl_t_binding : KeyBinding :=
  { name := ['C', 't', 'r', 'l', '-', 't'], kws := { state := GDK_CONTROL_MASK, keyval := 116 },
    keycode := 28, lua_callback := 11 }

/-- A key-name table with the six key names of the default bindings. -/
def defaultsPlatform : Platform where
  gdk_keyval_from_name := fun n =>
    if n = ['t'] then 116
    else if n = ['w'] then 119
    else if n = ['L', 'e', 'f', 't'] then 65361
    else if n = ['R', 'i', 'g', 'h', 't'] then 65363
    else if n = ['I', 'n', 's', 'e', 'r', 't'] then 65379
    else GDK_KEY_VoidSymbol
  gdk_keyval_to_lower := fun k => if 65 ≤ k ∧ k ≤ 90 then k + 32 else k
  XKeysymToKeycode := fun k =>
    if k = 116 then 28 else if k = 119 then 25 else if k = 65361 then 113
    else if k = 65363 then 114 else if k = 65379 then 118 else 0

/-- References handed out in sequence: the `k`-th request gets `100 + k`. -/
def demo_luaL_ref (k : Nat) (_name : List Char) : Int := 100 + (k : Int)

/-- The key binding made by a successful bind of `name`, whose modifier part has the
mask `state` and whose key name is `key`, with the callback `lua_callback`. -/
def default_binding (P : Platform) (name : List Char) (state : Nat) (key : List Char)
    (lua_callback : Int) : KeyBinding :=
  { name := name,
    kws := { state := state, keyval := P.gdk_keyval_to_lower (P.gdk_keyval_from_name key) },
    keycode := P.XKeysymToKeycode (P.gdk_keyval_to_lower (P.gdk_keyval_from_name key)),
    lua_callback := lua_callback }

/-- The key registry installed by `hermit_keys_set_defaults` when the key names
resolve. -/
def default_key_bindings (P : Platform) (luaL_ref : Nat → List Char → Int) :
    List KeyBinding :=
  [ default_binding P ['A', 'l', 't', '-', 'L', 'e', 'f', 't'] GDK_MOD1_MASK
      ['L', 'e', 'f', 't'] (luaL_ref 0 ['p', 'r', 'e', 'v', 'T', 'a', 'b']),
    default_binding P ['A', 'l', 't', '-', 'R', 'i', 'g', 'h', 't'] GDK_MOD1_MASK
      ['R', 'i', 'g', 'h', 't'] (luaL_ref 1 ['n', 'e', 'x', 't', 'T', 'a', 'b']),
    default_binding P ['C', 't', 'r', 'l', '-', 't'] GDK_CONTROL_MASK
      ['t'] (luaL_ref 2 ['o', 'p', 'e', 'n', 'T', 'a', 'b']),
    default_binding P ['C', 't', 'r', 'l', 'S', 'h', 'i', 'f', 't', '-', 'w']
      (GDK_CONTROL_MASK ||| GDK_SHIFT_MASK)
      ['w'] (luaL_ref 3 ['c', 'l', 'o', 's', 'e', 'T', 'a', 'b']),
    default_binding P ['C', 't', 'r', 'l', '-', 'I', 'n', 's', 'e', 'r', 't'] GDK_CONTROL_MASK
      ['I', 'n', 's', 'e', 'r', 't'] (luaL_ref 4 ['c', 'o', 'p', 'y']),
    default_binding P ['S', 'h', 'i', 'f', 't', '-', 'I', 'n', 's', 'e', 'r', 't'] GDK_SHIFT_MASK
      ['I', 'n', 's', 'e', 'r', 't'] (luaL_ref 5 ['p', 'a', 's', 't', 'e']) ]

/-! ## Vocabulary of the statements -/

/-- The key/code check of a policy: hardware key code against the stored key code
under the keycode policy, folded key symbol against the stored key value under the
keysym policy. -/
def key_check (P : Platform) : HermitKbPolicy → GdkEventKey → KeyBinding → Prop
  | .HermitKbUseKeycode, event, kb => event.hardware_keycode = kb.keycode
  | .HermitKbUseKeysym, event, kb => P.gdk_keyval_to_lower event.keyval = kb.kws.keyval
  | .other _, _, _ => False

/-- A binding matches an event: the modifier check and the key/code check pass. -/
def binding_matches (P : Platform) (policy : HermitKbPolicy) (event : GdkEventKey)
    (kb : KeyBinding) : Prop :=
  event.state &&& kb.kws.state = kb.kws.state ∧ key_check P policy event kb

instance key_check_decidable (P : Platform) (policy : HermitKbPolicy)
    (event : GdkEventKey) (kb : KeyBinding) : Decidable (key_check P policy event kb) := by
  cases policy <;> unfold key_check <;> infer_instance

instance binding_matches_decidable (P : Platform) (policy : HermitKbPolicy)
    (event : GdkEventKey) (kb : KeyBinding) :
    Decidable (binding_matches P policy event kb) := by
  unfold binding_matches; infer_instance

/-- The names of the modifier table. -/
def modifier_names : List (List Char) := hermit_modifiers.map (fun m => m.name)

/-- A text is a concatenation of (zero or more) names of the modifier table. -/
def IsModifierChain (text : List Char) : Prop :=
  ∃ names : List (List Char), (∀ n ∈ names, n ∈ modifier_names) ∧ names.flatten = text

/-- One call of the configuration-time interface. -/
inductive Op where
  | keys_bind (keybinding : List Char) (lua_callback : Int)
  | keys_unbind (keybinding : List Char)
  | mouse_bind (mouse_event : List Char) (lua_callback : Int)
  | mouse_unbind (mouse_event : List Char)
  deriving DecidableEq, Repr

/-- The state after one call. -/
def apply_op (P : Platform) (w : World) : Op → World
  | .keys_bind keybinding lua_callback => hermit_keys_bind P w keybinding lua_callback
  | .keys_unbind keybinding => hermit_keys_unbind w keybinding
  | .mouse_bind mouse_event lua_callback => hermit_mouse_bind w mouse_event lua_callback
  | .mouse_unbind mouse_event => hermit_mouse_unbind w mouse_event

/-- The state after a sequence of calls, made from left to right. -/
def run_ops (P : Platform) (w : World) (ops : List Op) : World :=
  ops.foldl (apply_op P) w

/-- The handle passed to a bind call. -/
def op_handle : Op → Option Int
  | .keys_bind _ lua_callback => some lua_callback
  | .mouse_bind _ lua_callback => some lua_callback
  | _ => none

/-- The handle accepted by a call: the one passed to a bind call that succeeds, that
is, whose descriptor parses or whose event name is in the mouse event table. -/
def op_accepted (P : Platform) : Op → Option Int
  | .keys_bind keybinding lua_callback =>
    if (hermit_parse_keys_str P keybinding { state := 0, keyval := 0 }).1 = 0 then
      some lua_callback
    else none
  | .mouse_bind mouse_event lua_callback =>
    if get_mouse_event_type (some mouse_event) ≠ GDK_NOTHING then some lua_callback else none
  | _ => none

/-- The handles passed to the bind calls of a sequence, in order. -/
def bind_handles (ops : List Op) : List Int := ops.filterMap op_handle

/-- The handles accepted by the successful bind calls of a sequence, in order. -/
def accepted_handles (P : Platform) (ops : List Op) : List Int :=
  ops.filterMap (op_accepted P)

/-- The handles held by the live bindings of both registries, one entry per binding. -/
def live_handles (w : World) : List Int :=
  w.configs.key_bindings.map (fun kb => kb.lua_callback) ++
    w.configs.mouse_bindings.map (fun mb => mb.lua_callback)

/-- A sequence of calls: bind "Ctrl-t" to 11, rebind it to 12, bind DoubleClick to
13, try to bind the unparsable "Foo-t" to 14, unbind "Ctrl-t". -/
def demoOps : List Op :=
  [ .keys_bind ['C', 't', 'r', 'l', '-', 't'] 11,
    .keys_bind ['C', 't', 'r', 'l', '-', 't'] 12,
    .mouse_bind ['D', 'o', 'u', 'b', 'l', 'e', 'C', 'l', 'i', 'c', 'k'] 13,
    .keys_bind ['F', 'o', 'o', '-', 't'] 14,
    .keys_unbind ['C', 't', 'r', 'l', '-', 't'] ]

/-- Two mouse bindings of the double-click type with callbacks 31 and 32 and one of
type 2 (which shares no bit with 5) with callback 33. -/
def demoMouseWorld : World :=
  { configs :=
      { key_bindings := [],
        mouse_bindings :=
          [ { type := GDK_2BUTTON_PRESS, lua_callback := 31 },
            { type := 2, lua_callback := 33 },
            { type := GDK_2BUTTON_PRESS, lua_callback := 32 } ],
        kb_policy := .HermitKbUseKeysym },
    released := [], invoked := [] }

/-- The key name of a descriptor: the text after the first '-', or the whole
descriptor when it has no '-'. -/
def descriptor_key (keybinding : List Char) : List Char :=
  if '-' ∈ keybinding then (keybinding.dropWhile (fun c => c != '-')).drop 1
  else keybinding

/-- The name of the only row of the mouse event table. -/
def DoubleClick : List Char := ['D', 'o', 'u', 'b', 'l', 'e', 'C', 'l', 'i', 'c', 'k']

/-- The row of the modifier table at an index (a row with an empty name and no mask
past the end of the table). -/
def modifier_at (j : Nat) : HermitModifier :=
  hermit_modifiers.getD j { name := [], state := 0 }

/-- The concatenation of the modifier names at the given table indices. -/
def chain_text (idxs : List Nat) : List Char :=
  (idxs.map (fun j => (modifier_at j).name)).flatten

/-- The bitwise OR of the masks of the modifiers at the given table indices. -/
def chain_mask (idxs : List Nat) : Nat :=
  idxs.foldr (fun j acc => (modifier_at j).state ||| acc) 0

/-- A text is a non-empty concatenation of modifier names whose table indices
(Alt 0, Ctrl 1, Shift 2, Meta 3, Super 4, Hyper 5) do not decrease from left to
right; repetitions are allowed. -/
def IsOrderedChain (text : List Char) : Prop :=
  ∃ idxs : List Nat, idxs ≠ [] ∧ (∀ j ∈ idxs, j < HermitModsSz) ∧
    idxs.Pairwise (fun a b => a ≤ b) ∧ chain_text idxs = text

/-! ## Dispatch lemmas -/

theorem keycode_from_no_match (P : Platform) (w : World) (event : GdkEventKey) (kbs : List KeyBinding)
    (h : ∀ kb ∈ kbs, ¬ binding_matches P .HermitKbUseKeycode event kb) :
    hermit_key_press_use_keycode_from w event kbs = (false, w) := by
  induction kbs with
  | nil => rfl
  | cons kb rest ih =>
    have hkb := h kb (List.mem_cons_self _ _)
    have hrest := ih (fun x hx => h x (List.mem_cons_of_mem _ hx))
    simp only [binding_matches, key_check, not_and] at hkb
    unfold hermit_key_press_use_keycode_from
    by_cases hm : event.state &&& kb.kws.state = kb.kws.state
    · simp [hm, hkb hm, hrest]
    · simp [hm, hrest]

theorem keysym_from_no_match (P : Platform) (w : World) (event : GdkEventKey)
    (kbs : List KeyBinding)
    (h : ∀ kb ∈ kbs, ¬ binding_matches P .HermitKbUseKeysym event kb) :
    hermit_key_press_use_keysym_from P w event kbs = (false, w) := by
  induction kbs with
  | nil => rfl
  | cons kb rest ih =>
    have hkb := h kb (List.mem_cons_self _ _)
    have hrest := ih (fun x hx => h x (List.mem_cons_of_mem _ hx))
    simp only [binding_matches, key_check, not_and] at hkb
    unfold hermit_key_press_use_keysym_from
    by_cases hm : event.state &&& kb.kws.state = kb.kws.state
    · simp [hm, hkb hm, hrest]
    · simp [hm, hrest]

theorem keycode_from_first_match (P : Platform) (w : World) (event : GdkEventKey)
    (kbs : List KeyBinding)
    (h : ∃ kb ∈ kbs, binding_matches P .HermitKbUseKeycode event kb) :
    ∃ (i : Nat) (hi : i < kbs.length),
      binding_matches P .HermitKbUseKeycode event (kbs.get ⟨i, hi⟩) ∧
      (∀ (j : Nat) (hj : j < kbs.length), j < i →
        ¬ binding_matches P .HermitKbUseKeycode event (kbs.get ⟨j, hj⟩)) ∧
      hermit_key_press_use_keycode_from w event kbs =
        (true, { w with invoked := w.invoked ++ [(kbs.get ⟨i, hi⟩).lua_callback] }) := by
  induction kbs with
  | nil => simp at h
  | cons kb rest ih =>
    by_cases hm : binding_matches P .HermitKbUseKeycode event kb
    · refine ⟨0, by simp, hm, fun j _ hj => absurd hj (Nat.not_lt_zero j), ?_⟩
      have hm1 := hm.1
      have hm2 : event.hardware_keycode = kb.keycode := hm.2
      unfold hermit_key_press_use_keycode_from
      simp [hm1, hm2, hermit_lua_dofunction]
    · have hrest : ∃ x ∈ rest, binding_matches P .HermitKbUseKeycode event x := by
        obtain ⟨x, hx, hxm⟩ := h
        rcases List.mem_cons.mp hx with rfl | hx
        · exact absurd hxm hm
        · exact ⟨x, hx, hxm⟩
      obtain ⟨i, hi, hmi, hmin, hres⟩ := ih hrest
      refine ⟨i + 1, by simpa using hi, by simpa using hmi, ?_, ?_⟩
      · intro j hj hji
        cases j with
        | zero => simpa using hm
        | succ j => simpa using hmin j (by simpa using hj) (by omega)
      · have hstep : hermit_key_press_use_keycode_from w event (kb :: rest) =
            hermit_key_press_use_keycode_from w event rest := by
          simp only [binding_matches, key_check, not_and] at hm
          conv_lhs => unfold hermit_key_press_use_keycode_from
          by_cases hs : event.state &&& kb.kws.state = kb.kws.state
          · simp [hs, hm hs]
          · simp [hs]
        rw [hstep, hres]; simp

theorem keysym_from_first_match (P : Platform) (w : World) (event : GdkEventKey)
    (kbs : List KeyBinding)
    (h : ∃ kb ∈ kbs, binding_matches P .HermitKbUseKeysym event kb) :
    ∃ (i : Nat) (hi : i < kbs.length),
      binding_matches P .HermitKbUseKeysym event (kbs.get ⟨i, hi⟩) ∧
      (∀ (j : Nat) (hj : j < kbs.length), j < i →
        ¬ binding_matches P .HermitKbUseKeysym event (kbs.get ⟨j, hj⟩)) ∧
      hermit_key_press_use_keysym_from P w event kbs =
        (true, { w with invoked := w.invoked ++ [(kbs.get ⟨i, hi⟩).lua_callback] }) := by
  induction kbs with
  | nil => simp at h
  | cons kb rest ih =>
    by_cases hm : binding_matches P .HermitKbUseKeysym event kb
    · refine ⟨0, by simp, hm, fun j _ hj => absurd hj (Nat.not_lt_zero j), ?_⟩
      have hm1 := hm.1
      have hm2 : P.gdk_keyval_to_lower event.keyval = kb.kws.keyval := hm.2
      unfold hermit_key_press_use_keysym_from
      simp [hm1, hm2, hermit_lua_dofunction]
    · have hrest : ∃ x ∈ rest, binding_matches P .HermitKbUseKeysym event x := by
        obtain ⟨x, hx, hxm⟩ := h
        rcases List.mem_cons.mp hx with rfl | hx
        · exact absurd hxm hm
        · exact ⟨x, hx, hxm⟩
      obtain ⟨i, hi, hmi, hmin, hres⟩ := ih hrest
      refine ⟨i + 1, by simpa using hi, by simpa using hmi, ?_, ?_⟩
      · intro j hj hji
        cases j with
        | zero => simpa using hm
        | succ j => simpa using hmin j (by simpa using hj) (by omega)
      · have hstep : hermit_key_press_use_keysym_from P w event (kb :: rest) =
            hermit_key_press_use_keysym_from P w event rest := by
          simp only [binding_matches, key_check, not_and] at hm
          conv_lhs => unfold hermit_key_press_use_keysym_from
          by_cases hs : event.state &&& kb.kws.state = kb.kws.state
          · simp [hs, hm hs]
          · simp [hs]
        rw [hstep, hres]; simp

/-! ## Key dispatch -/

/-- C1. Key dispatch is first-match-wins under both known policies: when some binding
of the registry matches the event, `hermit_key_event` returns TRUE and runs exactly
one callback, the one of the matching binding with the smallest index; when no
binding matches it returns FALSE and runs no callback. -/
theorem key_dispatch_first_match_wins (P : Platform) (w : World) (event : GdkEventKey)
    (hpol : w.configs.kb_policy = .HermitKbUseKeycode ∨
      w.configs.kb_policy = .HermitKbUseKeysym) :
    ((∃ kb ∈ w.configs.key_bindings, binding_matches P w.configs.kb_policy event kb) →
      ∃ (i : Nat) (hi : i < w.configs.key_bindings.length),
        binding_matches P w.configs.kb_policy event (w.configs.key_bindings.get ⟨i, hi⟩) ∧
        (∀ (j : Nat) (hj : j < w.configs.key_bindings.length), j < i →
          ¬ binding_matches P w.configs.kb_policy event
              (w.configs.key_bindings.get ⟨j, hj⟩)) ∧
        hermit_key_event P w event =
          (true, { w with invoked :=
              w.invoked ++ [(w.configs.key_bindings.get ⟨i, hi⟩).lua_callback] })) ∧
    ((∀ kb ∈ w.configs.key_bindings, ¬ binding_matches P w.configs.kb_policy event kb) →
      hermit_key_event P w event = (false, w)) := by
  rcases hpol with hp | hp
  · constructor
    · intro h
      rw [hp] at h ⊢
      obtain ⟨i, hi, h1, h2, h3⟩ := keycode_from_first_match P w event _ h
      exact ⟨i, hi, h1, h2, by simp only [hermit_key_event, hp, hermit_key_press_use_keycode, h3]⟩
    · intro h
      rw [hp] at h
      simp only [hermit_key_event, hp, hermit_key_press_use_keycode,
        keycode_from_no_match P w event _ h]
  · constructor
    · intro h
      rw [hp] at h ⊢
      obtain ⟨i, hi, h1, h2, h3⟩ := keysym_from_first_match P w event _ h
      exact ⟨i, hi, h1, h2, by simp only [hermit_key_event, hp, hermit_key_press_use_keysym, h3]⟩
    · intro h
      rw [hp] at h
      simp only [hermit_key_event, hp, hermit_key_press_use_keysym,
        keysym_from_no_match P w event _ h]

/-- Witness of C1: with the two overlapping bindings of `overlapBindings` under the
keysym policy, a Ctrl+t press runs only callback 11 of the first binding. -/
theorem key_dispatch_first_match_wins_witness :
    (∃ kb ∈ (worldOf .HermitKbUseKeysym overlapBindings).configs.key_bindings,
        kb.lua_callback = 22 ∧ binding_matches demoPlatform .HermitKbUseKeysym ctrl_t_event kb) ∧
    hermit_key_event demoPlatform (worldOf .HermitKbUseKeysym overlapBindings) ctrl_t_event =
      (true, { worldOf .HermitKbUseKeysym overlapBindings with invoked := [11] }) := by
  refine ⟨⟨_, List.mem_cons_of_mem _ (List.mem_cons_self _ _), rfl, by decide⟩, ?_⟩
  obtain ⟨i, hi, _, hmin, hres⟩ :=
    (key_dispatch_first_match_wins demoPlatform (worldOf .HermitKbUseKeysym overlapBindings)
      ctrl_t_event (Or.inr rfl)).1 ⟨_, List.mem_cons_self _ _, by decide⟩
  have h0 : i = 0 := by
    by_contra hne
    exact hmin 0 (by decide) (Nat.pos_of_ne_zero hne) (by decide)
  subst h0
  rw [hres]; rfl

/-- Dispatch over a registry of one binding whose key/code check passes is decided
by the modifier comparison alone. -/
theorem key_event_single (P : Platform) (w : World) (kb : KeyBinding) (event : GdkEventKey)
    (hreg : w.configs.key_bindings = [kb])
    (hpol : w.configs.kb_policy = .HermitKbUseKeycode ∨
      w.configs.kb_policy = .HermitKbUseKeysym)
    (hkey : key_check P w.configs.kb_policy event kb) :
    hermit_key_event P w event =
      if event.state &&& kb.kws.state = kb.kws.state then
        (true, { w with invoked := w.invoked ++ [kb.lua_callback] })
      else (false, w) := by
  rcases hpol with hp | hp
  · rw [hp] at hkey
    have hk : event.hardware_keycode = kb.keycode := hkey
    simp only [hermit_key_event, hp, hermit_key_press_use_keycode, hreg,
      hermit_key_press_use_keycode_from, hk, hermit_lua_dofunction]
    split <;> simp
  · rw [hp] at hkey
    have hk : P.gdk_keyval_to_lower event.keyval = kb.kws.keyval := hkey
    simp only [hermit_key_event, hp, hermit_key_press_use_keysym, hreg,
      hermit_key_press_use_keysym_from, hk, hermit_lua_dofunction]
    split <;> simp

/-- A state that contains a state containing `r` contains `r`. -/
theorem land_superset (s s2 r : Nat) (hs : s2 &&& s = s) (hr : s &&& r = r) :
    s2 &&& r = r := by
  calc s2 &&& r = s2 &&& (s &&& r) := by rw [hr]
    _ = (s2 &&& s) &&& r := by rw [Nat.land_assoc]
    _ = r := by rw [hs, hr]

/-- C2. The modifier check of both keyboard policies is the non-strict superset test
`(s AND r) = r`: for a registry of one binding whose key/code check passes, the
binding is dispatched exactly when the test holds; a binding requiring Ctrl is
dispatched for the state Ctrl|Shift, a binding requiring Ctrl|Shift is not dispatched
for the state Ctrl, and a dispatched binding is also dispatched for every event with
the same key and a state that is a bitwise superset. -/
theorem modifier_check_is_superset_test (P : Platform) (w : World) (kb : KeyBinding)
    (event : GdkEventKey) (hreg : w.configs.key_bindings = [kb])
    (hpol : w.configs.kb_policy = .HermitKbUseKeycode ∨
      w.configs.kb_policy = .HermitKbUseKeysym)
    (hkey : key_check P w.configs.kb_policy event kb) :
    ((hermit_key_event P w event).1 = true ↔
      event.state &&& kb.kws.state = kb.kws.state) ∧
    (kb.kws.state = GDK_CONTROL_MASK →
      event.state = GDK_CONTROL_MASK ||| GDK_SHIFT_MASK →
      hermit_key_event P w event =
        (true, { w with invoked := w.invoked ++ [kb.lua_callback] })) ∧
    (kb.kws.state = GDK_CONTROL_MASK ||| GDK_SHIFT_MASK →
      event.state = GDK_CONTROL_MASK →
      hermit_key_event P w event = (false, w)) ∧
    (∀ event2 : GdkEventKey,
      event2.keyval = event.keyval →
      event2.hardware_keycode = event.hardware_keycode →
      event2.state &&& event.state = event.state →
      (hermit_key_event P w event).1 = true →
      hermit_key_event P w event2 =
        (true, { w with invoked := w.invoked ++ [kb.lua_callback] })) := by
  have hsingle := key_event_single P w kb event hreg hpol hkey
  have hiff : (hermit_key_event P w event).1 = true ↔
      event.state &&& kb.kws.state = kb.kws.state := by
    rw [hsingle]; split <;> simp [*]
  refine ⟨hiff, ?_, ?_, ?_⟩
  · intro hr hs
    rw [hsingle, hr, hs]
    exact if_pos (by decide)
  · intro hr hs
    rw [hsingle, hr, hs]
    exact if_neg (by decide)
  · intro event2 hkv hhw hsup hdisp
    have hkey2 : key_check P w.configs.kb_policy event2 kb := by
      rcases hpol with hp | hp <;> rw [hp] at hkey ⊢
      · show event2.hardware_keycode = kb.keycode
        rw [hhw]; exact hkey
      · show P.gdk_keyval_to_lower event2.keyval = kb.kws.keyval
        rw [hkv]; exact hkey
    rw [key_event_single P w kb event2 hreg hpol hkey2,
      if_pos (land_superset _ _ _ hsup (hiff.mp hdisp))]

/-- Witness of C2: a binding requiring Ctrl is dispatched for a press of t with Ctrl
and Shift held. -/
theorem modifier_check_is_superset_test_witness :
    hermit_key_event demoPlatform (worldOf .HermitKbUseKeysym [ctrl_t_binding])
        { state := GDK_CONTROL_MASK ||| GDK_SHIFT_MASK, keyval := 84, hardware_keycode := 28 } =
      (true, { worldOf .HermitKbUseKeysym [ctrl_t_binding] with invoked := [11] }) :=
  (modifier_check_is_superset_test demoPlatform (worldOf .HermitKbUseKeysym [ctrl_t_binding])
    ctrl_t_binding
    { state := GDK_CONTROL_MASK ||| GDK_SHIFT_MASK, keyval := 84, hardware_keycode := 28 }
    rfl (Or.inr rfl) (by decide)).2.1 rfl rfl

/-! ## Parser lemmas -/

theorem scan_step_pos (token : List Char) (rows : List HermitModifier) (i : Nat)
    (h : (get_modifier_state_scan token rows i).2.2 ≠ 0) :
    ∃ m ∈ rows, m.name <+: token ∧
      (get_modifier_state_scan token rows i).2.2 = m.name.length ∧
      (get_modifier_state_scan token rows i).2.1 = m.state := by
  induction rows generalizing i with
  | nil => simp [get_modifier_state_scan] at h
  | cons m rest ih =>
    unfold get_modifier_state_scan at h ⊢
    by_cases hp : m.name.isPrefixOf token = true
    · simp only [hp, if_true]
      exact ⟨m, List.mem_cons_self _ _, List.isPrefixOf_iff_prefix.mp hp, rfl, rfl⟩
    · simp only [hp] at h ⊢
      obtain ⟨x, hx, hx2⟩ := ih (i + 1) h
      exact ⟨x, List.mem_cons_of_mem _ hx, hx2⟩

theorem loop_success_chain (fuel : Nat) (token : List Char) (i state : Nat)
    (h : get_modifier_state_loop fuel token i state ≠ GDK_NOTHING) :
    IsModifierChain token := by
  induction fuel generalizing token i state with
  | zero => simp [get_modifier_state_loop] at h
  | succ fuel ih =>
    unfold get_modifier_state_loop at h
    by_cases hlen : token.length > 0
    · simp only [hlen, if_true] at h
      by_cases hstep : (get_modifier_state_scan token (hermit_modifiers.drop i) i).2.2 = 0
      · simp [hstep] at h
      · simp only [hstep, if_false] at h
        obtain ⟨m, hm, hpre, hlen2, _⟩ := scan_step_pos token _ i hstep
        obtain ⟨names, hnames, hjoin⟩ := ih _ _ _ h
        obtain ⟨t, ht⟩ := hpre
        refine ⟨m.name :: names, ?_, ?_⟩
        · intro n hn
          rcases List.mem_cons.mp hn with rfl | hn
          · exact List.mem_map_of_mem _ (List.mem_of_mem_drop hm)
          · exact hnames n hn
        · rw [List.flatten_cons, hjoin, hlen2, ← ht, List.drop_left]
    · have : token = [] := List.length_eq_zero.mp (by omega)
      exact ⟨[], by simp, by simp [this]⟩

/-- The bound on the rounds of the loop is never reached: any two bounds above the
length of the token give the same result. -/
theorem loop_fuel_irrelevant (fuel1 fuel2 : Nat) (token : List Char) (i state : Nat)
    (h1 : token.length < fuel1) (h2 : token.length < fuel2) :
    get_modifier_state_loop fuel1 token i state =
      get_modifier_state_loop fuel2 token i state := by
  induction fuel1 generalizing fuel2 token i state with
  | zero => omega
  | succ f1 ih =>
    cases fuel2 with
    | zero => omega
    | succ f2 =>
      unfold get_modifier_state_loop
      by_cases hlen : token.length > 0
      · simp only [hlen, if_true]
        by_cases hstep : (get_modifier_state_scan token (hermit_modifiers.drop i) i).2.2 = 0
        · simp [hstep]
        · simp only [hstep, if_false]
          have hd : (token.drop
              (get_modifier_state_scan token (hermit_modifiers.drop i) i).2.2).length <
              token.length := by
            rw [List.length_drop]
            exact Nat.sub_lt hlen (Nat.pos_of_ne_zero hstep)
          exact ih _ _ _ _ (Nat.lt_of_lt_of_le hd (Nat.le_of_lt_succ h1))
            (Nat.lt_of_lt_of_le hd (Nat.le_of_lt_succ h2))
      · simp [hlen]

theorem span_no_dash (s : List Char) (h : '-' ∉ s) :
    s.span (fun c => c != '-') = (s, []) := by
  rw [List.span_eq_take_drop]
  induction s with
  | nil => rfl
  | cons c rest ih =>
    have hc : c ≠ '-' := fun e => h (by simp [e])
    have hr : '-' ∉ rest := fun e => h (List.mem_cons_of_mem _ e)
    have ih2 := ih hr
    simp only [Prod.mk.injEq] at ih2
    simp [hc, ih2.1, ih2.2]

theorem span_dash (mods key : List Char) (h : '-' ∉ mods) :
    (mods ++ '-' :: key).span (fun c => c != '-') = (mods, '-' :: key) := by
  rw [List.span_eq_take_drop]
  induction mods with
  | nil => simp
  | cons c rest ih =>
    have hc : c ≠ '-' := fun e => h (by simp [e])
    have hr : '-' ∉ rest := fun e => h (List.mem_cons_of_mem _ e)
    have ih2 := ih hr
    simp only [Prod.mk.injEq] at ih2
    simp [hc, ih2.1, ih2.2]

theorem g_strsplit_nil : g_strsplit [] = [] := rfl

theorem g_strsplit_no_dash (s : List Char) (hne : s ≠ []) (h : '-' ∉ s) :
    g_strsplit s = [s] := by
  unfold g_strsplit
  rw [if_neg hne, span_no_dash s h]

theorem g_strsplit_dash (mods key : List Char) (h : '-' ∉ mods) :
    g_strsplit (mods ++ '-' :: key) = [mods, key] := by
  unfold g_strsplit
  rw [if_neg (by simp), span_dash mods key h]

theorem parse_nil (P : Platform) (kws : KeyWithState) :
    hermit_parse_keys_str P [] kws = (-1, kws) := by
  simp [hermit_parse_keys_str, g_strsplit_nil]

theorem parse_dash (P : Platform) (mods key : List Char) (kws : KeyWithState)
    (h : '-' ∉ mods) :
    hermit_parse_keys_str P (mods ++ '-' :: key) kws =
      if get_modifier_state (some mods) = GDK_NOTHING then (-1, kws)
      else if P.gdk_keyval_from_name key = GDK_KEY_VoidSymbol then (-1, kws)
      else (0, { state := (get_modifier_state (some mods)).toNat,
                 keyval := P.gdk_keyval_to_lower (P.gdk_keyval_from_name key) }) := by
  simp [hermit_parse_keys_str, g_strsplit_dash mods key h]

theorem parse_no_dash (P : Platform) (s : List Char) (kws : KeyWithState)
    (hne : s ≠ []) (h : '-' ∉ s) :
    hermit_parse_keys_str P s kws =
      if P.gdk_keyval_from_name s = GDK_KEY_VoidSymbol then (-1, kws)
      else (0, { state := 0, keyval := P.gdk_keyval_to_lower (P.gdk_keyval_from_name s) }) := by
  simp [hermit_parse_keys_str, g_strsplit_no_dash s hne h]

theorem bind_of_parse_fail (P : Platform) (w : World) (keybinding : List Char)
    (lua_callback : Int)
    (h : (hermit_parse_keys_str P keybinding { state := 0, keyval := 0 }).1 = -1) :
    hermit_keys_bind P w keybinding lua_callback = w := by
  simp [hermit_keys_bind, h]

/-! ## Parsing -/

/-- C3 (evaluation at a failing input). On a platform where the key name "t"
resolves, the descriptor "ShiftCtrl-t", whose modifier part is a concatenation of two
names of the modifier table, is rejected with -1 on every platform and leaves `*kws`
untouched, while the same two names in table order, "CtrlShift-t", parse to the
state Ctrl|Shift. -/
theorem parse_rejects_shift_before_ctrl :
    demoPlatform.gdk_keyval_from_name ['t'] ≠ GDK_KEY_VoidSymbol ∧
    IsModifierChain ['S', 'h', 'i', 'f', 't', 'C', 't', 'r', 'l'] ∧
    (∀ (P : Platform) (kws : KeyWithState),
      hermit_parse_keys_str P ['S', 'h', 'i', 'f', 't', 'C', 't', 'r', 'l', '-', 't'] kws =
        (-1, kws)) ∧
    hermit_parse_keys_str demoPlatform ['C', 't', 'r', 'l', 'S', 'h', 'i', 'f', 't', '-', 't']
        { state := 0, keyval := 0 } =
      (0, { state := GDK_CONTROL_MASK ||| GDK_SHIFT_MASK, keyval := 116 }) := by
  refine ⟨by decide, ⟨[['S', 'h', 'i', 'f', 't'], ['C', 't', 'r', 'l']], ?_, rfl⟩, ?_, by decide⟩
  · intro n hn
    simp only [List.mem_cons, List.mem_singleton, List.not_mem_nil, or_false] at hn
    rcases hn with rfl | rfl <;> decide
  · intro P kws
    have hsplit : (['S', 'h', 'i', 'f', 't', 'C', 't', 'r', 'l', '-', 't'] : List Char) =
        ['S', 'h', 'i', 'f', 't', 'C', 't', 'r', 'l'] ++ '-' :: ['t'] := rfl
    rw [hsplit, parse_dash P _ _ kws (by decide)]
    exact if_pos (by decide)

theorem get_modifier_state_success_chain (mods : List Char)
    (h : get_modifier_state (some mods) ≠ GDK_NOTHING) : IsModifierChain mods :=
  loop_success_chain _ mods 0 0 h

/-- C4. A descriptor that is empty, or whose text before the first '-' is not a
concatenation of names of the modifier table, or whose key name (the text after the
first '-', or the whole descriptor when it has no '-') does not resolve, makes
`hermit_parse_keys_str` return -1 without writing `*kws`, and `hermit_keys_bind`
with it and any callback returns the state it was given: key registry, mouse
registry and released references are unchanged and no binding is added. -/
theorem parse_failure_leaves_state (P : Platform) (keybinding : List Char)
    (hbad : keybinding = [] ∨
      (∃ mods key : List Char, keybinding = mods ++ '-' :: key ∧ '-' ∉ mods ∧
        (¬ IsModifierChain mods ∨ P.gdk_keyval_from_name key = GDK_KEY_VoidSymbol)) ∨
      ('-' ∉ keybinding ∧ P.gdk_keyval_from_name keybinding = GDK_KEY_VoidSymbol)) :
    (∀ kws : KeyWithState, hermit_parse_keys_str P keybinding kws = (-1, kws)) ∧
    (∀ (w : World) (lua_callback : Int),
      hermit_keys_bind P w keybinding lua_callback = w) := by
  have hparse : ∀ kws : KeyWithState, hermit_parse_keys_str P keybinding kws = (-1, kws) := by
    intro kws
    rcases hbad with rfl | ⟨mods, key, rfl, hdash, hmk⟩ | ⟨hdash, hkey⟩
    · exact parse_nil P kws
    · rw [parse_dash P mods key kws hdash]
      rcases hmk with hm | hk
      · have : get_modifier_state (some mods) = GDK_NOTHING := by
          by_contra hne
          exact hm (get_modifier_state_success_chain mods hne)
        rw [if_pos this]
      · rw [if_pos hk]; simp
    · by_cases hne : keybinding = []
      · subst hne; exact parse_nil P kws
      · rw [parse_no_dash P keybinding kws hne hdash, if_pos hkey]
  exact ⟨hparse, fun w cb => bind_of_parse_fail P w keybinding cb (by rw [hparse])⟩

/-- Witness of C4: "Foo-t" has a modifier part that is no chain of modifier names;
binding it on a state that holds one binding changes nothing. -/
theorem parse_failure_leaves_state_witness :
    hermit_parse_keys_str demoPlatform ['F', 'o', 'o', '-', 't'] { state := 7, keyval := 9 } =
      (-1, { state := 7, keyval := 9 }) ∧
    hermit_keys_bind demoPlatform (worldOf .HermitKbUseKeysym [ctrl_t_binding])
      ['F', 'o', 'o', '-', 't'] 33 = worldOf .HermitKbUseKeysym [ctrl_t_binding] := by
  have hchain : ¬ IsModifierChain ['F', 'o', 'o'] := by
    rintro ⟨names, hnames, hjoin⟩
    cases names with
    | nil => simp at hjoin
    | cons n rest =>
      have hn := hnames n (List.mem_cons_self _ _)
      simp only [modifier_names, hermit_modifiers, List.map_cons, List.map_nil, List.mem_cons,
        List.mem_singleton, List.not_mem_nil, or_false] at hn
      rcases hn with rfl | rfl | rfl | rfl | rfl | rfl <;> simp at hjoin
  have h := parse_failure_leaves_state demoPlatform ['F', 'o', 'o', '-', 't']
    (Or.inr (Or.inl ⟨['F', 'o', 'o'], ['t'], rfl, by decide, Or.inl hchain⟩))
  exact ⟨h.1 _, h.2 _ _⟩

/-! ## Registry lemmas -/

theorem parse_rc (P : Platform) (keybinding : List Char) (kws : KeyWithState) :
    hermit_parse_keys_str P keybinding kws = (-1, kws) ∨
    (hermit_parse_keys_str P keybinding kws).1 = 0 := by
  unfold hermit_parse_keys_str
  simp only
  split
  · exact Or.inl rfl
  · split
    · exact Or.inl rfl
    · split
      · exact Or.inl rfl
      · exact Or.inr rfl

theorem get_kb_index_from_absent (name : List Char) (l : List KeyBinding) (i : Nat)
    (h : ∀ kb ∈ l, kb.name ≠ name) : get_kb_index_from name l i = -1 := by
  induction l generalizing i with
  | nil => rfl
  | cons kb rest ih =>
    unfold get_kb_index_from
    rw [if_neg (h kb (List.mem_cons_self _ _))]
    exact ih (i + 1) (fun x hx => h x (List.mem_cons_of_mem _ hx))

theorem get_kb_index_from_split (name : List Char) (pre post : List KeyBinding)
    (kb : KeyBinding) (i : Nat) (hpre : ∀ x ∈ pre, x.name ≠ name) (hkb : kb.name = name) :
    get_kb_index_from name (pre ++ kb :: post) i = ((i + pre.length : Nat) : Int) := by
  induction pre generalizing i with
  | nil => simp [get_kb_index_from, hkb]
  | cons x rest ih =>
    have hx : x.name ≠ name := hpre x (List.mem_cons_self _ _)
    show get_kb_index_from name (x :: (rest ++ kb :: post)) i = _
    rw [get_kb_index_from, if_neg hx, ih (i + 1) (fun y hy => hpre y (List.mem_cons_of_mem _ hy))]
    simp only [List.length_cons]
    congr 1; omega

theorem exists_name_split (name : List Char) (l : List KeyBinding)
    (h : ∃ kb ∈ l, kb.name = name) :
    ∃ (pre : List KeyBinding) (kb : KeyBinding) (post : List KeyBinding),
      l = pre ++ kb :: post ∧ (∀ x ∈ pre, x.name ≠ name) ∧ kb.name = name := by
  induction l with
  | nil => simp at h
  | cons x rest ih =>
    by_cases hx : x.name = name
    · exact ⟨[], x, rest, rfl, by simp, hx⟩
    · have : ∃ kb ∈ rest, kb.name = name := by
        obtain ⟨kb, hkb, hn⟩ := h
        rcases List.mem_cons.mp hkb with rfl | hkb
        · exact absurd hn hx
        · exact ⟨kb, hkb, hn⟩
      obtain ⟨pre, kb, post, hl, hpre, hkb⟩ := ih this
      refine ⟨x :: pre, kb, post, by simp [hl], ?_, hkb⟩
      intro y hy
      rcases List.mem_cons.mp hy with rfl | hy
      · exact hx
      · exact hpre y hy

theorem keys_unbind_absent (w : World) (name : List Char)
    (h : ∀ kb ∈ w.configs.key_bindings, kb.name ≠ name) :
    hermit_keys_unbind w name = w := by
  simp [hermit_keys_unbind, get_kb_index, get_kb_index_from_absent name _ 0 h]

theorem keys_unbind_present (w : World) (name : List Char) (pre post : List KeyBinding)
    (kb : KeyBinding) (hl : w.configs.key_bindings = pre ++ kb :: post)
    (hpre : ∀ x ∈ pre, x.name ≠ name) (hkb : kb.name = name) :
    hermit_keys_unbind w name =
      { w with
        configs := { w.configs with key_bindings := pre ++ post },
        released := w.released ++ [kb.lua_callback] } := by
  have hnn : ¬ ((pre.length : Int) < 0) := by omega
  simp [hermit_keys_unbind, get_kb_index, hl,
    get_kb_index_from_split name pre post kb 0 hpre hkb, hermit_lua_unref,
    List.eraseIdx_append_of_length_le, hnn, List.getElem_append_right]

theorem keys_bind_absent (P : Platform) (w : World) (name : List Char) (lua_callback : Int)
    (hparse : (hermit_parse_keys_str P name { state := 0, keyval := 0 }).1 = 0)
    (h : ∀ kb ∈ w.configs.key_bindings, kb.name ≠ name) :
    hermit_keys_bind P w name lua_callback =
      { w with configs := { w.configs with key_bindings := w.configs.key_bindings ++
          [{ name := name,
             kws := (hermit_parse_keys_str P name { state := 0, keyval := 0 }).2,
             keycode := P.XKeysymToKeycode
               (hermit_parse_keys_str P name { state := 0, keyval := 0 }).2.keyval,
             lua_callback := lua_callback }] } } := by
  simp [hermit_keys_bind, hparse, get_kb_index, get_kb_index_from_absent name _ 0 h]

theorem keys_bind_present (P : Platform) (w : World) (name : List Char) (lua_callback : Int)
    (pre post : List KeyBinding) (kb : KeyBinding)
    (hparse : (hermit_parse_keys_str P name { state := 0, keyval := 0 }).1 = 0)
    (hl : w.configs.key_bindings = pre ++ kb :: post)
    (hpre : ∀ x ∈ pre, x.name ≠ name) (hkb : kb.name = name) :
    hermit_keys_bind P w name lua_callback =
      { w with
        configs := { w.configs with key_bindings := pre ++
          { name := kb.name,
            kws := (hermit_parse_keys_str P name { state := 0, keyval := 0 }).2,
            keycode := P.XKeysymToKeycode
              (hermit_parse_keys_str P name { state := 0, keyval := 0 }).2.keyval,
            lua_callback := lua_callback } :: post },
        released := w.released ++ [kb.lua_callback] } := by
  have hnn : ¬ ((pre.length : Int) < 0) := by omega
  simp [hermit_keys_bind, hparse, get_kb_index, hl,
    get_kb_index_from_split name pre post kb 0 hpre hkb, hermit_lua_unref, hnn,
    List.getElem_append_right]

theorem filter_name_split (name : List Char) (pre post : List KeyBinding) (kb : KeyBinding)
    (hpre : ∀ x ∈ pre, x.name ≠ name) (hpost : ∀ x ∈ post, x.name ≠ name)
    (hkb : kb.name = name) :
    (pre ++ kb :: post).filter (fun x => decide (x.name = name)) = [kb] := by
  have h1 : pre.filter (fun x => decide (x.name = name)) = [] :=
    List.filter_eq_nil_iff.mpr (fun x hx => by simpa using hpre x hx)
  have h2 : post.filter (fun x => decide (x.name = name)) = [] :=
    List.filter_eq_nil_iff.mpr (fun x hx => by simpa using hpost x hx)
  simp [List.filter_append, List.filter_cons, h1, h2, hkb]

theorem nodup_split_post (name : List Char) (pre post : List KeyBinding) (kb : KeyBinding)
    (hnd : ((pre ++ kb :: post).map (fun x => x.name)).Nodup) (hkb : kb.name = name) :
    ∀ x ∈ post, x.name ≠ name := by
  intro x hx hxn
  rw [List.map_append, List.map_cons] at hnd
  have h2 := (List.nodup_cons.mp (List.nodup_append.mp hnd).2.1).1
  exact h2 (List.mem_map.mpr ⟨x, hx, by rw [hxn, hkb]⟩)

/-- After a successful bind on a registry with unique names the descriptor names
exactly one position of the registry, which holds the new callback. -/
theorem keys_bind_lands (P : Platform) (w : World) (name : List Char) (lua_callback : Int)
    (huniq : (w.configs.key_bindings.map (fun x => x.name)).Nodup)
    (hparse : (hermit_parse_keys_str P name { state := 0, keyval := 0 }).1 = 0) :
    ∃ (pre post : List KeyBinding) (kb : KeyBinding),
      (hermit_keys_bind P w name lua_callback).configs.key_bindings = pre ++ kb :: post ∧
      (∀ x ∈ pre, x.name ≠ name) ∧ (∀ x ∈ post, x.name ≠ name) ∧
      kb.name = name ∧ kb.lua_callback = lua_callback := by
  by_cases habs : ∀ kb ∈ w.configs.key_bindings, kb.name ≠ name
  · rw [keys_bind_absent P w name lua_callback hparse habs]
    exact ⟨w.configs.key_bindings, [], _, rfl, habs, by simp, rfl, rfl⟩
  · have hex : ∃ kb ∈ w.configs.key_bindings, kb.name = name := by
      by_contra hne
      exact habs (fun kb hkb hn => hne ⟨kb, hkb, hn⟩)
    obtain ⟨pre, kb, post, hl, hpre, hkb⟩ := exists_name_split name _ hex
    rw [keys_bind_present P w name lua_callback pre post kb hparse hl hpre hkb]
    refine ⟨pre, post, _, rfl, hpre, ?_, hkb, rfl⟩
    exact nodup_split_post name pre post kb (by rw [← hl]; exact huniq) hkb

/-! ## Rebinding -/

/-- C5. Rebinding replaces in place: on a key registry with unique names and for a
descriptor that parses, after `hermit_keys_bind(n, h1)` and `hermit_keys_bind(n, h2)`
exactly one binding is named n and its callback is h2, the second call released h1
once and nothing else, and it did not change the length of the registry. -/
theorem rebind_replaces_in_place (P : Platform) (w : World) (n : List Char) (h1 h2 : Int)
    (huniq : (w.configs.key_bindings.map (fun x => x.name)).Nodup)
    (hparse : (hermit_parse_keys_str P n { state := 0, keyval := 0 }).1 = 0) :
    (∃ kb : KeyBinding,
      (hermit_keys_bind P (hermit_keys_bind P w n h1) n h2).configs.key_bindings.filter
          (fun x => decide (x.name = n)) = [kb] ∧
      kb.lua_callback = h2) ∧
    (hermit_keys_bind P (hermit_keys_bind P w n h1) n h2).released =
      (hermit_keys_bind P w n h1).released ++ [h1] ∧
    (hermit_keys_bind P (hermit_keys_bind P w n h1) n h2).configs.key_bindings.length =
      (hermit_keys_bind P w n h1).configs.key_bindings.length := by
  obtain ⟨pre, post, kb, hl, hpre, hpost, hkb, hcb⟩ := keys_bind_lands P w n h1 huniq hparse
  rw [keys_bind_present P (hermit_keys_bind P w n h1) n h2 pre post kb hparse hl hpre hkb]
  refine ⟨⟨_, filter_name_split n pre post _ hpre hpost hkb, rfl⟩, by simp [hcb], by simp [hl]⟩

/-- Witness of C5: rebinding "Ctrl-t" from callback 11 to callback 12 on the empty
registry leaves one binding named "Ctrl-t" with callback 12 and releases 11. -/
theorem rebind_replaces_in_place_witness :
    (∃ kb : KeyBinding,
      (hermit_keys_bind demoPlatform
          (hermit_keys_bind demoPlatform (emptyWorld .HermitKbUseKeysym)
            ['C', 't', 'r', 'l', '-', 't'] 11)
          ['C', 't', 'r', 'l', '-', 't'] 12).configs.key_bindings.filter
          (fun x => decide (x.name = ['C', 't', 'r', 'l', '-', 't'])) = [kb] ∧
      kb.lua_callback = 12) ∧
    (hermit_keys_bind demoPlatform
        (hermit_keys_bind demoPlatform (emptyWorld .HermitKbUseKeysym)
          ['C', 't', 'r', 'l', '-', 't'] 11)
        ['C', 't', 'r', 'l', '-', 't'] 12).released = [11] :=
  ⟨(rebind_replaces_in_place demoPlatform (emptyWorld .HermitKbUseKeysym)
      ['C', 't', 'r', 'l', '-', 't'] 11 12 (by decide) (by decide)).1,
   (rebind_replaces_in_place demoPlatform (emptyWorld .HermitKbUseKeysym)
      ['C', 't', 'r', 'l', '-', 't'] 11 12 (by decide) (by decide)).2.1⟩

/-! ## Mouse registry lemmas -/

theorem get_mb_index_from_absent (type : Int) (l : List MouseBinding) (i : Nat)
    (h : ∀ mb ∈ l, mb.type ≠ type) : get_mb_index_from type l i = -1 := by
  induction l generalizing i with
  | nil => rfl
  | cons mb rest ih =>
    unfold get_mb_index_from
    rw [if_neg (fun e => h mb (List.mem_cons_self _ _) e.symm)]
    exact ih (i + 1) (fun x hx => h x (List.mem_cons_of_mem _ hx))

theorem get_mb_index_from_split (type : Int) (pre post : List MouseBinding)
    (mb : MouseBinding) (i : Nat) (hpre : ∀ x ∈ pre, x.type ≠ type) (hmb : mb.type = type) :
    get_mb_index_from type (pre ++ mb :: post) i = ((i + pre.length : Nat) : Int) := by
  induction pre generalizing i with
  | nil => simp [get_mb_index_from, hmb]
  | cons x rest ih =>
    have hx : ¬ type = x.type := fun e => hpre x (List.mem_cons_self _ _) e.symm
    show get_mb_index_from type (x :: (rest ++ mb :: post)) i = _
    rw [get_mb_index_from, if_neg hx, ih (i + 1) (fun y hy => hpre y (List.mem_cons_of_mem _ hy))]
    simp only [List.length_cons]
    congr 1; omega

theorem exists_type_split (type : Int) (l : List MouseBinding)
    (h : ∃ mb ∈ l, mb.type = type) :
    ∃ (pre : List MouseBinding) (mb : MouseBinding) (post : List MouseBinding),
      l = pre ++ mb :: post ∧ (∀ x ∈ pre, x.type ≠ type) ∧ mb.type = type := by
  induction l with
  | nil => simp at h
  | cons x rest ih =>
    by_cases hx : x.type = type
    · exact ⟨[], x, rest, rfl, by simp, hx⟩
    · have : ∃ mb ∈ rest, mb.type = type := by
        obtain ⟨mb, hmb, hn⟩ := h
        rcases List.mem_cons.mp hmb with rfl | hmb
        · exact absurd hn hx
        · exact ⟨mb, hmb, hn⟩
      obtain ⟨pre, mb, post, hl, hpre, hmb⟩ := ih this
      refine ⟨x :: pre, mb, post, by simp [hl], ?_, hmb⟩
      intro y hy
      rcases List.mem_cons.mp hy with rfl | hy
      · exact hx
      · exact hpre y hy

theorem mouse_bind_unknown (w : World) (mouse_event : List Char) (lua_callback : Int)
    (h : get_mouse_event_type (some mouse_event) = GDK_NOTHING) :
    hermit_mouse_bind w mouse_event lua_callback = w := by
  simp [hermit_mouse_bind, h]

theorem mouse_bind_absent (w : World) (mouse_event : List Char) (lua_callback : Int)
    (hknown : get_mouse_event_type (some mouse_event) ≠ GDK_NOTHING)
    (h : ∀ mb ∈ w.configs.mouse_bindings, mb.type ≠ get_mouse_event_type (some mouse_event)) :
    hermit_mouse_bind w mouse_event lua_callback =
      { w with configs := { w.configs with mouse_bindings := w.configs.mouse_bindings ++
          [{ type := get_mouse_event_type (some mouse_event),
             lua_callback := lua_callback }] } } := by
  simp [hermit_mouse_bind, hknown, get_mb_index, get_mb_index_from_absent _ _ 0 h]

theorem mouse_bind_present (w : World) (mouse_event : List Char) (lua_callback : Int)
    (pre post : List MouseBinding) (mb : MouseBinding)
    (hknown : get_mouse_event_type (some mouse_event) ≠ GDK_NOTHING)
    (hl : w.configs.mouse_bindings = pre ++ mb :: post)
    (hpre : ∀ x ∈ pre, x.type ≠ get_mouse_event_type (some mouse_event))
    (hmb : mb.type = get_mouse_event_type (some mouse_event)) :
    hermit_mouse_bind w mouse_event lua_callback =
      { w with
        configs := { w.configs with mouse_bindings := pre ++
          { type := get_mouse_event_type (some mouse_event),
            lua_callback := lua_callback } :: post },
        released := w.released ++ [mb.lua_callback] } := by
  have hnn : ¬ ((pre.length : Int) < 0) := by omega
  simp [hermit_mouse_bind, hknown, get_mb_index, hl,
    get_mb_index_from_split _ pre post mb 0 hpre hmb, hermit_lua_unref, hnn,
    List.getElem_append_right]

theorem mouse_unbind_unknown (w : World) (mouse_event : List Char)
    (h : get_mouse_event_type (some mouse_event) = GDK_NOTHING) :
    hermit_mouse_unbind w mouse_event = w := by
  simp [hermit_mouse_unbind, h]

theorem mouse_unbind_absent (w : World) (mouse_event : List Char)
    (h : ∀ mb ∈ w.configs.mouse_bindings, mb.type ≠ get_mouse_event_type (some mouse_event)) :
    hermit_mouse_unbind w mouse_event = w := by
  simp [hermit_mouse_unbind, get_mb_index, get_mb_index_from_absent _ _ 0 h]

theorem mouse_unbind_present (w : World) (mouse_event : List Char)
    (pre post : List MouseBinding) (mb : MouseBinding)
    (hknown : get_mouse_event_type (some mouse_event) ≠ GDK_NOTHING)
    (hl : w.configs.mouse_bindings = pre ++ mb :: post)
    (hpre : ∀ x ∈ pre, x.type ≠ get_mouse_event_type (some mouse_event))
    (hmb : mb.type = get_mouse_event_type (some mouse_event)) :
    hermit_mouse_unbind w mouse_event =
      { w with
        configs := { w.configs with mouse_bindings := pre ++ post },
        released := w.released ++ [mb.lua_callback] } := by
  have hnn : ¬ ((pre.length : Int) < 0) := by omega
  simp [hermit_mouse_unbind, hknown, get_mb_index, hl,
    get_mb_index_from_split _ pre post mb 0 hpre hmb, hermit_lua_unref, hnn,
    List.eraseIdx_append_of_length_le, List.getElem_append_right]

/-! ## Ownership of callback handles -/

/-- One call keeps the account of handles: the handles held by live bindings together
with the released ones are, after the call, those of before plus the one accepted by
the call. -/
theorem apply_op_account (P : Platform) (w : World) (op : Op) :
    (live_handles (apply_op P w op) ++ (apply_op P w op).released).Perm
      ((live_handles w ++ w.released) ++ (op_accepted P op).toList) := by
  cases op with
  | keys_bind n h =>
    simp only [apply_op, op_accepted]
    rcases parse_rc P n { state := 0, keyval := 0 } with hfail | hok
    · have hne : ¬ (hermit_parse_keys_str P n { state := 0, keyval := 0 }).1 = 0 := by
        rw [hfail]; decide
      rw [bind_of_parse_fail P w n h (by rw [hfail]), if_neg hne]
      simp
    · rw [if_pos hok]
      by_cases habs : ∀ kb ∈ w.configs.key_bindings, kb.name ≠ n
      · rw [keys_bind_absent P w n h hok habs, List.perm_iff_count]
        intro a
        simp only [live_handles, List.map_append, List.map_cons, List.map_nil,
          List.count_append, List.count_cons, List.count_nil, Option.toList]
        omega
      · have hex : ∃ kb ∈ w.configs.key_bindings, kb.name = n := by
          by_contra hne
          exact habs (fun kb hkb hn => hne ⟨kb, hkb, hn⟩)
        obtain ⟨pre, kb, post, hl, hpre, hkb⟩ := exists_name_split n _ hex
        rw [keys_bind_present P w n h pre post kb hok hl hpre hkb, List.perm_iff_count]
        intro a
        simp only [live_handles, hl, List.map_append, List.map_cons, List.map_nil,
          List.count_append, List.count_cons, List.count_nil, Option.toList]
        omega
  | keys_unbind n =>
    simp only [apply_op, op_accepted, Option.toList, List.append_nil]
    by_cases habs : ∀ kb ∈ w.configs.key_bindings, kb.name ≠ n
    · rw [keys_unbind_absent w n habs]
    · have hex : ∃ kb ∈ w.configs.key_bindings, kb.name = n := by
        by_contra hne
        exact habs (fun kb hkb hn => hne ⟨kb, hkb, hn⟩)
      obtain ⟨pre, kb, post, hl, hpre, hkb⟩ := exists_name_split n _ hex
      rw [keys_unbind_present w n pre post kb hl hpre hkb, List.perm_iff_count]
      intro a
      simp only [live_handles, hl, List.map_append, List.map_cons, List.map_nil,
        List.count_append, List.count_cons, List.count_nil]
      omega
  | mouse_bind e h =>
    simp only [apply_op, op_accepted]
    by_cases hknown : get_mouse_event_type (some e) = GDK_NOTHING
    · rw [mouse_bind_unknown w e h hknown, if_neg (not_not.mpr hknown)]
      simp
    · rw [if_pos hknown]
      by_cases habs : ∀ mb ∈ w.configs.mouse_bindings,
          mb.type ≠ get_mouse_event_type (some e)
      · rw [mouse_bind_absent w e h hknown habs, List.perm_iff_count]
        intro a
        simp only [live_handles, List.map_append, List.map_cons, List.map_nil,
          List.count_append, List.count_cons, List.count_nil, Option.toList]
        omega
      · have hex : ∃ mb ∈ w.configs.mouse_bindings,
            mb.type = get_mouse_event_type (some e) := by
          by_contra hne
          exact habs (fun mb hmb hn => hne ⟨mb, hmb, hn⟩)
        obtain ⟨pre, mb, post, hl, hpre, hmb⟩ := exists_type_split _ _ hex
        rw [mouse_bind_present w e h pre post mb hknown hl hpre hmb, List.perm_iff_count]
        intro a
        simp only [live_handles, hl, List.map_append, List.map_cons, List.map_nil,
          List.count_append, List.count_cons, List.count_nil, Option.toList]
        omega
  | mouse_unbind e =>
    simp only [apply_op, op_accepted, Option.toList, List.append_nil]
    by_cases hknown : get_mouse_event_type (some e) = GDK_NOTHING
    · rw [mouse_unbind_unknown w e hknown]
    · by_cases habs : ∀ mb ∈ w.configs.mouse_bindings,
          mb.type ≠ get_mouse_event_type (some e)
      · rw [mouse_unbind_absent w e habs]
      · have hex : ∃ mb ∈ w.configs.mouse_bindings,
            mb.type = get_mouse_event_type (some e) := by
          by_contra hne
          exact habs (fun mb hmb hn => hne ⟨mb, hmb, hn⟩)
        obtain ⟨pre, mb, post, hl, hpre, hmb⟩ := exists_type_split _ _ hex
        rw [mouse_unbind_present w e pre post mb hknown hl hpre hmb, List.perm_iff_count]
        intro a
        simp only [live_handles, hl, List.map_append, List.map_cons, List.map_nil,
          List.count_append, List.count_cons, List.count_nil]
        omega

theorem run_ops_account (P : Platform) (w : World) (ops : List Op) :
    (live_handles (run_ops P w ops) ++ (run_ops P w ops).released).Perm
      ((live_handles w ++ w.released) ++ accepted_handles P ops) := by
  induction ops generalizing w with
  | nil => simp [run_ops, accepted_handles]
  | cons op rest ih =>
    have h1 := ih (apply_op P w op)
    have h2 := apply_op_account P w op
    have h3 : run_ops P w (op :: rest) = run_ops P (apply_op P w op) rest := rfl
    rw [h3]
    refine h1.trans ?_
    refine (List.Perm.append_right _ h2).trans ?_
    have h4 : accepted_handles P (op :: rest) =
        (op_accepted P op).toList ++ accepted_handles P rest := by
      unfold accepted_handles
      cases hacc : op_accepted P op <;> simp [List.filterMap_cons, hacc]
    rw [h4, List.append_assoc]

theorem accepted_sublist_bind_handles (P : Platform) (ops : List Op) :
    (accepted_handles P ops).Sublist (bind_handles ops) := by
  induction ops with
  | nil => simp [accepted_handles, bind_handles]
  | cons op rest ih =>
    unfold accepted_handles bind_handles at ih ⊢
    cases op with
    | keys_bind n h =>
      by_cases hok : (hermit_parse_keys_str P n { state := 0, keyval := 0 }).1 = 0
      · simpa [List.filterMap_cons, op_accepted, op_handle, hok] using ih
      · simpa [List.filterMap_cons, op_accepted, op_handle, hok] using
          ih.trans (List.sublist_cons_self _ _)
    | keys_unbind n => simpa [List.filterMap_cons, op_accepted, op_handle] using ih
    | mouse_bind e h =>
      by_cases hknown : get_mouse_event_type (some e) = GDK_NOTHING
      · simpa [List.filterMap_cons, op_accepted, op_handle, hknown] using
          ih.trans (List.sublist_cons_self _ _)
      · simpa [List.filterMap_cons, op_accepted, op_handle, hknown] using ih
    | mouse_unbind e => simpa [List.filterMap_cons, op_accepted, op_handle] using ih

/-- C6. Callback handles are released exactly once: after every prefix of a sequence
of key and mouse bind and unbind calls made from the empty registries with pairwise
distinct handles, each handle accepted by a successful bind is either held by exactly
one live binding and not released, or held by no binding and released exactly once;
no handle is released twice and no live binding holds a released handle. -/
theorem handles_released_exactly_once (P : Platform) (policy : HermitKbPolicy)
    (ops : List Op) (hdistinct : (bind_handles ops).Nodup) (k : Nat) :
    (∀ h ∈ accepted_handles P (ops.take k),
      ((live_handles (run_ops P (emptyWorld policy) (ops.take k))).count h = 1 ∧
        (run_ops P (emptyWorld policy) (ops.take k)).released.count h = 0) ∨
      ((live_handles (run_ops P (emptyWorld policy) (ops.take k))).count h = 0 ∧
        (run_ops P (emptyWorld policy) (ops.take k)).released.count h = 1)) ∧
    (∀ h : Int, (run_ops P (emptyWorld policy) (ops.take k)).released.count h ≤ 1) ∧
    (∀ h ∈ live_handles (run_ops P (emptyWorld policy) (ops.take k)),
      h ∉ (run_ops P (emptyWorld policy) (ops.take k)).released) := by
  have hperm := run_ops_account P (emptyWorld policy) (ops.take k)
  have hempty : live_handles (emptyWorld policy) ++ (emptyWorld policy).released = [] := rfl
  rw [hempty, List.nil_append] at hperm
  have hnd : (accepted_handles P (ops.take k)).Nodup := by
    refine List.Nodup.sublist ?_ hdistinct
    exact (accepted_sublist_bind_handles P (ops.take k)).trans
      ((List.take_sublist k ops).filterMap op_handle)
  have hall := hperm.nodup_iff.mpr hnd
  refine ⟨?_, ?_, ?_⟩
  · intro h hh
    have hc : (live_handles (run_ops P (emptyWorld policy) (ops.take k)) ++
        (run_ops P (emptyWorld policy) (ops.take k)).released).count h = 1 := by
      rw [hperm.count_eq]
      exact List.count_eq_one_of_mem hnd hh
    rw [List.count_append] at hc
    omega
  · intro h
    exact List.nodup_iff_count_le_one.mp (List.Nodup.of_append_right hall) h
  · intro h hlive hrel
    exact (List.nodup_append.mp hall).2.2 hlive hrel

/-- Witness of C6: after the five calls of `demoOps` the handle 12 is held by no
binding and was released once, and the handle 13 is held by one binding and was not
released. -/
theorem handles_released_exactly_once_witness :
    (bind_handles demoOps).Nodup ∧
    (((live_handles (run_ops demoPlatform (emptyWorld .HermitKbUseKeysym)
          (demoOps.take 5))).count 12 = 1 ∧
        (run_ops demoPlatform (emptyWorld .HermitKbUseKeysym)
          (demoOps.take 5)).released.count 12 = 0) ∨
      ((live_handles (run_ops demoPlatform (emptyWorld .HermitKbUseKeysym)
          (demoOps.take 5))).count 12 = 0 ∧
        (run_ops demoPlatform (emptyWorld .HermitKbUseKeysym)
          (demoOps.take 5)).released.count 12 = 1)) ∧
    (run_ops demoPlatform (emptyWorld .HermitKbUseKeysym) (demoOps.take 5)).released =
      [11, 12] ∧
    live_handles (run_ops demoPlatform (emptyWorld .HermitKbUseKeysym) (demoOps.take 5)) =
      [13] :=
  ⟨by decide,
   (handles_released_exactly_once demoPlatform .HermitKbUseKeysym demoOps (by decide) 5).1
     12 (by decide),
   by decide, by decide⟩

/-! ## Uniqueness of key binding names -/

theorem mouse_bind_key_bindings (w : World) (mouse_event : List Char) (lua_callback : Int) :
    (hermit_mouse_bind w mouse_event lua_callback).configs.key_bindings =
      w.configs.key_bindings := by
  unfold hermit_mouse_bind
  simp only
  split
  · rfl
  · split
    · rfl
    · split <;> rfl

theorem mouse_unbind_key_bindings (w : World) (mouse_event : List Char) :
    (hermit_mouse_unbind w mouse_event).configs.key_bindings = w.configs.key_bindings := by
  unfold hermit_mouse_unbind
  simp only
  split
  · rfl
  · split
    · rfl
    · split <;> rfl

theorem apply_op_names_nodup (P : Platform) (w : World) (op : Op)
    (h : (w.configs.key_bindings.map (fun x => x.name)).Nodup) :
    ((apply_op P w op).configs.key_bindings.map (fun x => x.name)).Nodup := by
  cases op with
  | keys_bind n cb =>
    simp only [apply_op]
    rcases parse_rc P n { state := 0, keyval := 0 } with hfail | hok
    · rw [bind_of_parse_fail P w n cb (by rw [hfail])]; exact h
    · by_cases habs : ∀ kb ∈ w.configs.key_bindings, kb.name ≠ n
      · rw [keys_bind_absent P w n cb hok habs]
        simp only [List.map_append, List.map_cons, List.map_nil]
        refine List.Nodup.append h (List.nodup_singleton _) ?_
        intro x hx hx2
        rw [List.mem_singleton] at hx2
        obtain ⟨kb, hkb, hkn⟩ := List.mem_map.mp hx
        exact habs kb hkb (hkn.trans hx2)
      · have hex : ∃ kb ∈ w.configs.key_bindings, kb.name = n := by
          by_contra hne
          exact habs (fun kb hkb hn => hne ⟨kb, hkb, hn⟩)
        obtain ⟨pre, kb, post, hl, hpre, hkb⟩ := exists_name_split n _ hex
        rw [keys_bind_present P w n cb pre post kb hok hl hpre hkb]
        rw [hl] at h
        simpa using h
  | keys_unbind n =>
    simp only [apply_op]
    by_cases habs : ∀ kb ∈ w.configs.key_bindings, kb.name ≠ n
    · rw [keys_unbind_absent w n habs]; exact h
    · have hex : ∃ kb ∈ w.configs.key_bindings, kb.name = n := by
        by_contra hne
        exact habs (fun kb hkb hn => hne ⟨kb, hkb, hn⟩)
      obtain ⟨pre, kb, post, hl, hpre, hkb⟩ := exists_name_split n _ hex
      rw [keys_unbind_present w n pre post kb hl hpre hkb]
      rw [hl] at h
      refine List.Nodup.sublist ?_ h
      exact List.Sublist.map _ (List.Sublist.append_left (List.sublist_cons_self _ _) _)
  | mouse_bind e cb =>
    simp only [apply_op, mouse_bind_key_bindings]; exact h
  | mouse_unbind e =>
    simp only [apply_op, mouse_unbind_key_bindings]; exact h

theorem run_ops_names_nodup (P : Platform) (w : World) (ops : List Op)
    (h : (w.configs.key_bindings.map (fun x => x.name)).Nodup) :
    ((run_ops P w ops).configs.key_bindings.map (fun x => x.name)).Nodup := by
  induction ops generalizing w with
  | nil => exact h
  | cons op rest ih => exact ih (apply_op P w op) (apply_op_names_nodup P w op h)

/-- C7. Key binding names are unique: in the key registry reached from the empty
registry by any sequence of bind and unbind calls (key calls, and mouse calls as
well) no two bindings have the same name. -/
theorem key_names_unique (P : Platform) (policy : HermitKbPolicy) (ops : List Op) :
    ((run_ops P (emptyWorld policy) ops).configs.key_bindings.map
      (fun kb => kb.name)).Nodup :=
  run_ops_names_nodup P (emptyWorld policy) ops List.nodup_nil

/-! ## Mouse dispatch -/

theorem mouse_event_from_eq (event : GdkEventButton) (l : List MouseBinding) (w : World) :
    hermit_mouse_event_from event l w =
      { w with
        invoked := w.invoked ++
          (l.filter (fun mb => decide (Int.land event.type mb.type ≠ 0))).map
            (fun mb => mb.lua_callback) } := by
  induction l generalizing w with
  | nil => simp [hermit_mouse_event_from]
  | cons mb rest ih =>
    unfold hermit_mouse_event_from
    by_cases hm : Int.land event.type mb.type ≠ 0
    · rw [if_pos hm, ih]
      simp [hermit_lua_dofunction, List.filter_cons, hm]
    · rw [if_neg hm, ih]
      simp [List.filter_cons, hm]

/-- C8. Mouse dispatch does not short-circuit and never consumes the event:
`hermit_mouse_event` returns FALSE and runs, in registry order and once per binding,
the callbacks of exactly the bindings whose type has a non-zero bitwise AND with the
type of the event; on the registry `demoMouseWorld`, where two bindings match a
double click, both callbacks run and the binding that does not match is skipped. -/
theorem mouse_dispatch_runs_all_matches :
    (∀ (w : World) (event : GdkEventButton),
      hermit_mouse_event w event =
        (false,
          { w with
            invoked := w.invoked ++
              (w.configs.mouse_bindings.filter
                (fun mb => decide (Int.land event.type mb.type ≠ 0))).map
                (fun mb => mb.lua_callback) })) ∧
    hermit_mouse_event demoMouseWorld { type := GDK_2BUTTON_PRESS } =
      (false, { demoMouseWorld with invoked := [31, 32] }) := by
  refine ⟨fun w event => ?_, by decide⟩
  simp only [hermit_mouse_event, mouse_event_from_eq]

/-! ## Unbinding -/

theorem keys_unbind_twice (w : World) (n : List Char)
    (huniq : (w.configs.key_bindings.map (fun x => x.name)).Nodup) :
    hermit_keys_unbind (hermit_keys_unbind w n) n = hermit_keys_unbind w n := by
  by_cases habs : ∀ kb ∈ w.configs.key_bindings, kb.name ≠ n
  · rw [keys_unbind_absent w n habs, keys_unbind_absent w n habs]
  · have hex : ∃ kb ∈ w.configs.key_bindings, kb.name = n := by
      by_contra hne
      exact habs (fun kb hkb hn => hne ⟨kb, hkb, hn⟩)
    obtain ⟨pre, kb, post, hl, hpre, hkb⟩ := exists_name_split n _ hex
    have hpost := nodup_split_post n pre post kb (by rw [← hl]; exact huniq) hkb
    rw [keys_unbind_present w n pre post kb hl hpre hkb]
    apply keys_unbind_absent
    intro x hx
    rcases List.mem_append.mp hx with hx | hx
    · exact hpre x hx
    · exact hpost x hx

/-- C9. Unbind is idempotent: on every state reached from the empty registries by
bind and unbind calls, calling `hermit_keys_unbind(n)` twice gives the same state
(registry and released handles included) as calling it once, so the second call
removes nothing and releases nothing. -/
theorem unbind_idempotent (P : Platform) (policy : HermitKbPolicy) (ops : List Op)
    (n : List Char) :
    hermit_keys_unbind (hermit_keys_unbind (run_ops P (emptyWorld policy) ops) n) n =
      hermit_keys_unbind (run_ops P (emptyWorld policy) ops) n ∧
    (hermit_keys_unbind (hermit_keys_unbind (run_ops P (emptyWorld policy) ops) n)
        n).configs.key_bindings =
      (hermit_keys_unbind (run_ops P (emptyWorld policy) ops) n).configs.key_bindings ∧
    (hermit_keys_unbind (hermit_keys_unbind (run_ops P (emptyWorld policy) ops) n)
        n).released =
      (hermit_keys_unbind (run_ops P (emptyWorld policy) ops) n).released := by
  have h := keys_unbind_twice (run_ops P (emptyWorld policy) ops) n
    (run_ops_names_nodup P (emptyWorld policy) ops List.nodup_nil)
  exact ⟨h, by rw [h], by rw [h]⟩

/-- C10. Unbinding an absent name is a no-op: when no binding of the key registry is
named n, `hermit_keys_unbind(n)` returns the state it was given, so the registry
keeps its contents and order and no callback handle is released. -/
theorem unbind_absent_is_noop (w : World) (n : List Char)
    (habsent : n ∉ w.configs.key_bindings.map (fun kb => kb.name)) :
    hermit_keys_unbind w n = w ∧
    (hermit_keys_unbind w n).configs.key_bindings = w.configs.key_bindings ∧
    (hermit_keys_unbind w n).released = w.released := by
  have h := keys_unbind_absent w n
    (fun kb hkb hn => habsent (List.mem_map.mpr ⟨kb, hkb, hn⟩))
  exact ⟨h, by rw [h], by rw [h]⟩

/-- Witness of C10: unbinding "t" from a registry that holds only "Ctrl-t". -/
theorem unbind_absent_is_noop_witness :
    hermit_keys_unbind (worldOf .HermitKbUseKeysym [ctrl_t_binding]) ['t'] =
      worldOf .HermitKbUseKeysym [ctrl_t_binding] :=
  (unbind_absent_is_noop (worldOf .HermitKbUseKeysym [ctrl_t_binding]) ['t']
    (by decide)).1

/-! ## End to end: a binding with two modifiers -/

theorem parse_dash_ok (P : Platform) (mods key : List Char) (kws : KeyWithState) (m : Nat)
    (h : '-' ∉ mods) (hm : get_modifier_state (some mods) = (m : Int))
    (hk : P.gdk_keyval_from_name key ≠ GDK_KEY_VoidSymbol) :
    hermit_parse_keys_str P (mods ++ '-' :: key) kws =
      (0, { state := m, keyval := P.gdk_keyval_to_lower (P.gdk_keyval_from_name key) }) := by
  have hne : ¬ ((m : Int) = GDK_NOTHING) := by
    unfold GDK_NOTHING; omega
  rw [parse_dash P mods key kws h, hm, if_neg hne, if_neg hk]
  simp

theorem keys_bind_fresh (P : Platform) (w : World) (name : List Char) (lua_callback : Int)
    (kws : KeyWithState)
    (hparse : hermit_parse_keys_str P name { state := 0, keyval := 0 } = (0, kws))
    (h : ∀ kb ∈ w.configs.key_bindings, kb.name ≠ name) :
    hermit_keys_bind P w name lua_callback =
      { w with configs := { w.configs with key_bindings := w.configs.key_bindings ++
          [{ name := name, kws := kws, keycode := P.XKeysymToKeycode kws.keyval,
             lua_callback := lua_callback }] } } := by
  rw [keys_bind_absent P w name lua_callback (by rw [hparse]) h, hparse]

/-- C11. End to end under the keysym policy: on a platform where the key name "w"
resolves, after `hermit_keys_bind("CtrlShift-w", h)` on the empty registry a press of
w with Ctrl alone returns FALSE and runs nothing, and a press of w with Ctrl and
Shift returns TRUE and runs h exactly once. -/
theorem ctrl_shift_w_end_to_end (P : Platform) (h : Int) (hardware_keycode : Nat)
    (hw : P.gdk_keyval_from_name ['w'] ≠ GDK_KEY_VoidSymbol) :
    hermit_key_event P
        (hermit_keys_bind P (emptyWorld .HermitKbUseKeysym)
          ['C', 't', 'r', 'l', 'S', 'h', 'i', 'f', 't', '-', 'w'] h)
        { state := GDK_CONTROL_MASK, keyval := P.gdk_keyval_from_name ['w'],
          hardware_keycode := hardware_keycode } =
      (false, hermit_keys_bind P (emptyWorld .HermitKbUseKeysym)
          ['C', 't', 'r', 'l', 'S', 'h', 'i', 'f', 't', '-', 'w'] h) ∧
    hermit_key_event P
        (hermit_keys_bind P (emptyWorld .HermitKbUseKeysym)
          ['C', 't', 'r', 'l', 'S', 'h', 'i', 'f', 't', '-', 'w'] h)
        { state := GDK_CONTROL_MASK ||| GDK_SHIFT_MASK, keyval := P.gdk_keyval_from_name ['w'],
          hardware_keycode := hardware_keycode } =
      (true, { hermit_keys_bind P (emptyWorld .HermitKbUseKeysym)
          ['C', 't', 'r', 'l', 'S', 'h', 'i', 'f', 't', '-', 'w'] h with invoked := [h] }) := by
  have hparse : hermit_parse_keys_str P
      ['C', 't', 'r', 'l', 'S', 'h', 'i', 'f', 't', '-', 'w'] { state := 0, keyval := 0 } =
      (0, { state := 5, keyval := P.gdk_keyval_to_lower (P.gdk_keyval_from_name ['w']) }) :=
    parse_dash_ok P ['C', 't', 'r', 'l', 'S', 'h', 'i', 'f', 't'] ['w'] _ 5 (by decide)
      (by decide) hw
  rw [keys_bind_fresh P _ _ h _ hparse (by simp [emptyWorld])]
  constructor
  · simp only [hermit_key_event, emptyWorld, hermit_key_press_use_keysym, List.nil_append,
      hermit_key_press_use_keysym_from]
    rw [if_neg (by decide)]
  · simp only [hermit_key_event, emptyWorld, hermit_key_press_use_keysym, List.nil_append,
      hermit_key_press_use_keysym_from, hermit_lua_dofunction]
    rw [if_pos (by decide)]
    simp

/-- Witness of C11 on the platform `demoPlatform`, with handle 7: the press with
Ctrl and Shift runs 7. -/
theorem ctrl_shift_w_end_to_end_witness :
    (hermit_key_event demoPlatform
        (hermit_keys_bind demoPlatform (emptyWorld .HermitKbUseKeysym)
          ['C', 't', 'r', 'l', 'S', 'h', 'i', 'f', 't', '-', 'w'] 7)
        { state := GDK_CONTROL_MASK ||| GDK_SHIFT_MASK, keyval := 119,
          hardware_keycode := 25 }).2.invoked = [7] ∧
    (hermit_key_event demoPlatform
        (hermit_keys_bind demoPlatform (emptyWorld .HermitKbUseKeysym)
          ['C', 't', 'r', 'l', 'S', 'h', 'i', 'f', 't', '-', 'w'] 7)
        { state := GDK_CONTROL_MASK, keyval := 119, hardware_keycode := 25 }).1 = false := by
  have h := ctrl_shift_w_end_to_end demoPlatform 7 25 (by decide)
  exact ⟨by rw [show (119 : Nat) = demoPlatform.gdk_keyval_from_name ['w'] from rfl, h.2],
    by rw [show (119 : Nat) = demoPlatform.gdk_keyval_from_name ['w'] from rfl, h.1]⟩

/-! ## Unknown policy -/

/-- C13. An unknown policy is never handled: when `configs.kb_policy` is neither
`HermitKbUseKeycode` nor `HermitKbUseKeysym`, `hermit_key_event` returns FALSE and
runs no callback, whatever the registry holds. -/
theorem unknown_policy_not_handled (P : Platform) (w : World) (event : GdkEventKey)
    (h1 : w.configs.kb_policy ≠ .HermitKbUseKeycode)
    (h2 : w.configs.kb_policy ≠ .HermitKbUseKeysym) :
    hermit_key_event P w event = (false, w) := by
  unfold hermit_key_event
  cases hp : w.configs.kb_policy with
  | HermitKbUseKeycode => exact absurd hp h1
  | HermitKbUseKeysym => exact absurd hp h2
  | other raw => rfl

/-- Witness of C13: with the policy value 7 the two bindings of `overlapBindings`,
which match a Ctrl+t press under both known policies, are not run. -/
theorem unknown_policy_not_handled_witness :
    (∀ kb ∈ overlapBindings,
      binding_matches demoPlatform .HermitKbUseKeycode ctrl_t_event kb ∧
      binding_matches demoPlatform .HermitKbUseKeysym ctrl_t_event kb) ∧
    hermit_key_event demoPlatform (worldOf (.other 7) overlapBindings) ctrl_t_event =
      (false, worldOf (.other 7) overlapBindings) :=
  ⟨by decide,
   unknown_policy_not_handled demoPlatform (worldOf (.other 7) overlapBindings) ctrl_t_event
     (by decide) (by decide)⟩

/-! ## End to end: the default bindings -/

theorem bind_worldOf (P : Platform) (policy : HermitKbPolicy) (kbs : List KeyBinding)
    (mods key : List Char) (state : Nat) (lua_callback : Int)
    (hdash : '-' ∉ mods) (hm : get_modifier_state (some mods) = (state : Int))
    (hk : P.gdk_keyval_from_name key ≠ GDK_KEY_VoidSymbol)
    (habs : ∀ kb ∈ kbs, kb.name ≠ mods ++ '-' :: key) :
    hermit_keys_bind P (worldOf policy kbs) (mods ++ '-' :: key) lua_callback =
      worldOf policy
        (kbs ++ [default_binding P (mods ++ '-' :: key) state key lua_callback]) := by
  rw [keys_bind_fresh P (worldOf policy kbs) _ lua_callback _
    (parse_dash_ok P mods key _ state hdash hm hk) habs]
  rfl

theorem set_defaults_world (P : Platform) (luaL_ref : Nat → List Char → Int)
    (policy : HermitKbPolicy)
    (hLeft : P.gdk_keyval_from_name ['L', 'e', 'f', 't'] ≠ GDK_KEY_VoidSymbol)
    (hRight : P.gdk_keyval_from_name ['R', 'i', 'g', 'h', 't'] ≠ GDK_KEY_VoidSymbol)
    (ht : P.gdk_keyval_from_name ['t'] ≠ GDK_KEY_VoidSymbol)
    (hw : P.gdk_keyval_from_name ['w'] ≠ GDK_KEY_VoidSymbol)
    (hInsert : P.gdk_keyval_from_name ['I', 'n', 's', 'e', 'r', 't'] ≠ GDK_KEY_VoidSymbol) :
    hermit_keys_set_defaults P luaL_ref (emptyWorld policy) =
      { configs :=
          { key_bindings := default_key_bindings P luaL_ref,
            mouse_bindings :=
              [{ type := GDK_2BUTTON_PRESS,
                 lua_callback := luaL_ref 6 ['o', 'p', 'e', 'n', 'T', 'a', 'b'] }],
            kb_policy := policy },
        released := [], invoked := [] } := by
  have e1 : hermit_keys_bind P
      (worldOf policy ((default_key_bindings P luaL_ref).take 0))
      ['A', 'l', 't', '-', 'L', 'e', 'f', 't']
      (luaL_ref 0 ['p', 'r', 'e', 'v', 'T', 'a', 'b']) =
      worldOf policy ((default_key_bindings P luaL_ref).take 1) :=
    bind_worldOf P policy ((default_key_bindings P luaL_ref).take 0)
      ['A', 'l', 't'] ['L', 'e', 'f', 't'] GDK_MOD1_MASK _ (by decide) (by decide) hLeft
      (by simp [default_key_bindings, default_binding])
  have e2 : hermit_keys_bind P
      (worldOf policy ((default_key_bindings P luaL_ref).take 1))
      ['A', 'l', 't', '-', 'R', 'i', 'g', 'h', 't']
      (luaL_ref 1 ['n', 'e', 'x', 't', 'T', 'a', 'b']) =
      worldOf policy ((default_key_bindings P luaL_ref).take 2) :=
    bind_worldOf P policy ((default_key_bindings P luaL_ref).take 1)
      ['A', 'l', 't'] ['R', 'i', 'g', 'h', 't'] GDK_MOD1_MASK _ (by decide) (by decide) hRight
      (by simp [default_key_bindings, default_binding])
  have e3 : hermit_keys_bind P
      (worldOf policy ((default_key_bindings P luaL_ref).take 2))
      ['C', 't', 'r', 'l', '-', 't']
      (luaL_ref 2 ['o', 'p', 'e', 'n', 'T', 'a', 'b']) =
      worldOf policy ((default_key_bindings P luaL_ref).take 3) :=
    bind_worldOf P policy ((default_key_bindings P luaL_ref).take 2)
      ['C', 't', 'r', 'l'] ['t'] GDK_CONTROL_MASK _ (by decide) (by decide) ht
      (by simp [default_key_bindings, default_binding])
  have e4 : hermit_keys_bind P
      (worldOf policy ((default_key_bindings P luaL_ref).take 3))
      ['C', 't', 'r', 'l', 'S', 'h', 'i', 'f', 't', '-', 'w']
      (luaL_ref 3 ['c', 'l', 'o', 's', 'e', 'T', 'a', 'b']) =
      worldOf policy ((default_key_bindings P luaL_ref).take 4) :=
    bind_worldOf P policy ((default_key_bindings P luaL_ref).take 3)
      ['C', 't', 'r', 'l', 'S', 'h', 'i', 'f', 't'] ['w'] (GDK_CONTROL_MASK ||| GDK_SHIFT_MASK) _ (by decide) (by decide) hw
      (by simp [default_key_bindings, default_binding])
  have e5 : hermit_keys_bind P
      (worldOf policy ((default_key_bindings P luaL_ref).take 4))
      ['C', 't', 'r', 'l', '-', 'I', 'n', 's', 'e', 'r', 't']
      (luaL_ref 4 ['c', 'o', 'p', 'y']) =
      worldOf policy ((default_key_bindings P luaL_ref).take 5) :=
    bind_worldOf P policy ((default_key_bindings P luaL_ref).take 4)
      ['C', 't', 'r', 'l'] ['I', 'n', 's', 'e', 'r', 't'] GDK_CONTROL_MASK _ (by decide) (by decide) hInsert
      (by simp [default_key_bindings, default_binding])
  have e6 : hermit_keys_bind P
      (worldOf policy ((default_key_bindings P luaL_ref).take 5))
      ['S', 'h', 'i', 'f', 't', '-', 'I', 'n', 's', 'e', 'r', 't']
      (luaL_ref 5 ['p', 'a', 's', 't', 'e']) =
      worldOf policy ((default_key_bindings P luaL_ref).take 6) :=
    bind_worldOf P policy ((default_key_bindings P luaL_ref).take 5)
      ['S', 'h', 'i', 'f', 't'] ['I', 'n', 's', 'e', 'r', 't'] GDK_SHIFT_MASK _ (by decide) (by decide) hInsert
      (by simp [default_key_bindings, default_binding])
  have e0 : emptyWorld policy = worldOf policy ((default_key_bindings P luaL_ref).take 0) :=
    rfl
  unfold hermit_keys_set_defaults
  simp only [e0, e1, e2, e3, e4, e5, e6]
  rw [mouse_bind_absent _ _ _ (by decide) (by simp [worldOf])]
  rfl

/-- C12. End to end, defaults: on a platform where the key names Left, Right, t, w
and Insert resolve, `hermit_keys_set_defaults` run on the empty registries under the
keysym policy leaves the six key bindings Alt-Left, Alt-Right, Ctrl-t, CtrlShift-w,
Ctrl-Insert, Shift-Insert in this order with the references taken for prevTab,
nextTab, openTab, closeTab, copy, paste, and one mouse binding of the double-click
type with a reference taken for openTab; a press of Left with Alt runs exactly the
prevTab reference and returns TRUE, and a double click runs the mouse binding's
openTab reference. -/
theorem defaults_end_to_end (P : Platform) (luaL_ref : Nat → List Char → Int)
    (hardware_keycode : Nat)
    (hLeft : P.gdk_keyval_from_name ['L', 'e', 'f', 't'] ≠ GDK_KEY_VoidSymbol)
    (hRight : P.gdk_keyval_from_name ['R', 'i', 'g', 'h', 't'] ≠ GDK_KEY_VoidSymbol)
    (ht : P.gdk_keyval_from_name ['t'] ≠ GDK_KEY_VoidSymbol)
    (hw : P.gdk_keyval_from_name ['w'] ≠ GDK_KEY_VoidSymbol)
    (hInsert : P.gdk_keyval_from_name ['I', 'n', 's', 'e', 'r', 't'] ≠ GDK_KEY_VoidSymbol) :
    (hermit_keys_set_defaults P luaL_ref
        (emptyWorld .HermitKbUseKeysym)).configs.key_bindings =
      default_key_bindings P luaL_ref ∧
    (hermit_keys_set_defaults P luaL_ref
        (emptyWorld .HermitKbUseKeysym)).configs.mouse_bindings =
      [{ type := GDK_2BUTTON_PRESS,
         lua_callback := luaL_ref 6 ['o', 'p', 'e', 'n', 'T', 'a', 'b'] }] ∧
    hermit_key_event P (hermit_keys_set_defaults P luaL_ref (emptyWorld .HermitKbUseKeysym))
        { state := GDK_MOD1_MASK, keyval := P.gdk_keyval_from_name ['L', 'e', 'f', 't'],
          hardware_keycode := hardware_keycode } =
      (true, { hermit_keys_set_defaults P luaL_ref (emptyWorld .HermitKbUseKeysym) with
          invoked := [luaL_ref 0 ['p', 'r', 'e', 'v', 'T', 'a', 'b']] }) ∧
    hermit_mouse_event (hermit_keys_set_defaults P luaL_ref (emptyWorld .HermitKbUseKeysym))
        { type := GDK_2BUTTON_PRESS } =
      (false, { hermit_keys_set_defaults P luaL_ref (emptyWorld .HermitKbUseKeysym) with
          invoked := [luaL_ref 6 ['o', 'p', 'e', 'n', 'T', 'a', 'b']] }) := by
  rw [set_defaults_world P luaL_ref .HermitKbUseKeysym hLeft hRight ht hw hInsert]
  refine ⟨rfl, rfl, ?_, ?_⟩
  · simp only [hermit_key_event, hermit_key_press_use_keysym, default_key_bindings,
      default_binding, hermit_key_press_use_keysym_from, hermit_lua_dofunction]
    rw [if_pos (by decide)]
    simp
  · simp only [hermit_mouse_event, hermit_mouse_event_from, hermit_lua_dofunction]
    rw [if_pos (by decide)]
    simp

/-- Witness of C12 on the platform `defaultsPlatform` with the references of
`demo_luaL_ref`: the names and callbacks of the installed key bindings, and the
callbacks run by Alt+Left and by a double click. -/
theorem defaults_end_to_end_witness :
    (hermit_keys_set_defaults defaultsPlatform demo_luaL_ref
        (emptyWorld .HermitKbUseKeysym)).configs.key_bindings.map
        (fun kb => (kb.name, kb.lua_callback)) =
      [ (['A', 'l', 't', '-', 'L', 'e', 'f', 't'], 100),
        (['A', 'l', 't', '-', 'R', 'i', 'g', 'h', 't'], 101),
        (['C', 't', 'r', 'l', '-', 't'], 102),
        (['C', 't', 'r', 'l', 'S', 'h', 'i', 'f', 't', '-', 'w'], 103),
        (['C', 't', 'r', 'l', '-', 'I', 'n', 's', 'e', 'r', 't'], 104),
        (['S', 'h', 'i', 'f', 't', '-', 'I', 'n', 's', 'e', 'r', 't'], 105) ] ∧
    (hermit_key_event defaultsPlatform
        (hermit_keys_set_defaults defaultsPlatform demo_luaL_ref
          (emptyWorld .HermitKbUseKeysym))
        { state := GDK_MOD1_MASK, keyval := 65361, hardware_keycode := 113 }).2.invoked =
      [100] ∧
    (hermit_mouse_event
        (hermit_keys_set_defaults defaultsPlatform demo_luaL_ref
          (emptyWorld .HermitKbUseKeysym))
        { type := GDK_2BUTTON_PRESS }).2.invoked = [106] := by
  have h := defaults_end_to_end defaultsPlatform demo_luaL_ref 113
    (by decide) (by decide) (by decide) (by decide) (by decide)
  refine ⟨by rw [h.1]; rfl, ?_, by rw [h.2.2.2]; rfl⟩
  rw [show (65361 : Nat) = defaultsPlatform.gdk_keyval_from_name ['L', 'e', 'f', 't'] from rfl,
    h.2.2.1]
  rfl

/-! ## Case folding under the keysym policy -/

theorem exists_dash_split (s : List Char) (h : '-' ∈ s) :
    ∃ mods key : List Char, s = mods ++ '-' :: key ∧ '-' ∉ mods := by
  induction s with
  | nil => simp at h
  | cons c rest ih =>
    by_cases hc : c = '-'
    · exact ⟨[], rest, by simp [hc], by simp⟩
    · have hr : '-' ∈ rest := by
        rcases List.mem_cons.mp h with e | e
        · exact absurd e.symm hc
        · exact e
      obtain ⟨mods, key, hs, hm⟩ := ih hr
      refine ⟨c :: mods, key, by simp [hs], ?_⟩
      intro hmem
      rcases List.mem_cons.mp hmem with e | e
      · exact hc e.symm
      · exact hm e

theorem descriptor_key_dash (mods key : List Char) (h : '-' ∉ mods) :
    descriptor_key (mods ++ '-' :: key) = key := by
  have hs := span_dash mods key h
  rw [List.span_eq_take_drop] at hs
  simp only [Prod.mk.injEq] at hs
  unfold descriptor_key
  rw [if_pos (by simp), hs.2]
  rfl

theorem parse_keyval (P : Platform) (n : List Char) (kws : KeyWithState)
    (hok : (hermit_parse_keys_str P n kws).1 = 0) :
    (hermit_parse_keys_str P n kws).2.keyval =
      P.gdk_keyval_to_lower (P.gdk_keyval_from_name (descriptor_key n)) := by
  by_cases hd : '-' ∈ n
  · obtain ⟨mods, key, rfl, hm⟩ := exists_dash_split n hd
    rw [descriptor_key_dash mods key hm]
    rw [parse_dash P mods key kws hm] at hok ⊢
    split at hok
    · simp at hok
    · split at hok
      · simp at hok
      · rename_i h1 h2
        rw [if_neg h1, if_neg h2]
  · by_cases hne : n = []
    · subst hne
      rw [parse_nil] at hok
      simp at hok
    · have hk : descriptor_key n = n := by
        unfold descriptor_key; rw [if_neg hd]
      rw [hk]
      rw [parse_no_dash P n kws hne hd] at hok ⊢
      split at hok
      · simp at hok
      · rename_i h1
        rw [if_neg h1]

theorem keysym_from_fold (P : Platform) (w : World) (e1 e2 : GdkEventKey)
    (kbs : List KeyBinding) (hs : e1.state = e2.state)
    (hk : P.gdk_keyval_to_lower e1.keyval = P.gdk_keyval_to_lower e2.keyval) :
    hermit_key_press_use_keysym_from P w e1 kbs =
      hermit_key_press_use_keysym_from P w e2 kbs := by
  induction kbs with
  | nil => rfl
  | cons kb rest ih =>
    unfold hermit_key_press_use_keysym_from
    rw [hs, hk, ih]

/-- C14. Matching under the keysym policy is case-insensitive: the binding stored by
a successful `hermit_keys_bind` has as key value the lowercase fold of the key symbol
its key name resolves to, and two events with the same modifier state whose key
symbols have the same lowercase fold get the same result and run the same callback
from `hermit_key_press_use_keysym`, on every registry. -/
theorem keysym_matching_case_insensitive (P : Platform) (w : World) :
    (∀ (n : List Char) (h : Int),
      (hermit_parse_keys_str P n { state := 0, keyval := 0 }).1 = 0 →
      ∃ kb ∈ (hermit_keys_bind P w n h).configs.key_bindings,
        kb.name = n ∧ kb.lua_callback = h ∧
        kb.kws.keyval = P.gdk_keyval_to_lower (P.gdk_keyval_from_name (descriptor_key n))) ∧
    (∀ e1 e2 : GdkEventKey, e1.state = e2.state →
      P.gdk_keyval_to_lower e1.keyval = P.gdk_keyval_to_lower e2.keyval →
      hermit_key_press_use_keysym P w e1 = hermit_key_press_use_keysym P w e2) := by
  constructor
  · intro n h hok
    have hkv := parse_keyval P n _ hok
    by_cases habs : ∀ kb ∈ w.configs.key_bindings, kb.name ≠ n
    · rw [keys_bind_absent P w n h hok habs]
      exact ⟨_, List.mem_append_right _ (List.mem_singleton_self _), rfl, rfl, hkv⟩
    · have hex : ∃ kb ∈ w.configs.key_bindings, kb.name = n := by
        by_contra hne
        exact habs (fun kb hkb hn => hne ⟨kb, hkb, hn⟩)
      obtain ⟨pre, kb, post, hl, hpre, hkb⟩ := exists_name_split n _ hex
      rw [keys_bind_present P w n h pre post kb hok hl hpre hkb]
      exact ⟨_, List.mem_append_right _ (List.mem_cons_self _ _), hkb, rfl, hkv⟩
  · intro e1 e2 hs hk
    exact keysym_from_fold P w e1 e2 _ hs hk

/-- Witness of C14: with "Ctrl-t" bound to 11 on `demoPlatform`, Ctrl with the key
symbol t (116) and Ctrl with the key symbol T (84) both run 11. -/
theorem keysym_matching_case_insensitive_witness :
    hermit_key_press_use_keysym demoPlatform (worldOf .HermitKbUseKeysym [ctrl_t_binding])
        { state := GDK_CONTROL_MASK, keyval := 84, hardware_keycode := 0 } =
      hermit_key_press_use_keysym demoPlatform (worldOf .HermitKbUseKeysym [ctrl_t_binding])
        { state := GDK_CONTROL_MASK, keyval := 116, hardware_keycode := 28 } ∧
    hermit_key_press_use_keysym demoPlatform (worldOf .HermitKbUseKeysym [ctrl_t_binding])
        { state := GDK_CONTROL_MASK, keyval := 116, hardware_keycode := 28 } =
      (true, { worldOf .HermitKbUseKeysym [ctrl_t_binding] with invoked := [11] }) :=
  ⟨(keysym_matching_case_insensitive demoPlatform
      (worldOf .HermitKbUseKeysym [ctrl_t_binding])).2 _ _ rfl (by decide),
   by decide⟩

/-! ## The mouse event table -/

theorem mouse_event_type_unknown (mouse_event : List Char) (h : mouse_event ≠ DoubleClick) :
    get_mouse_event_type (some mouse_event) = GDK_NOTHING := by
  have h2 : ¬ mouse_event = ['D', 'o', 'u', 'b', 'l', 'e', 'C', 'l', 'i', 'c', 'k'] := h
  simp only [get_mouse_event_type, hermit_mouse_events, get_mouse_event_type_from]
  rw [if_neg h2]

theorem mouse_event_type_known (mouse_event : List Char)
    (h : get_mouse_event_type (some mouse_event) ≠ GDK_NOTHING) :
    get_mouse_event_type (some mouse_event) = GDK_2BUTTON_PRESS := by
  by_cases hn : mouse_event = DoubleClick
  · subst hn; rfl
  · exact absurd (mouse_event_type_unknown mouse_event hn) h

/-- C15. Unknown mouse event names are rejected without effect: for an event name
other than "DoubleClick" (compared character by character, case included),
`hermit_mouse_bind` with any handle and `hermit_mouse_unbind` return the state they
were given, so both registries and the released handles are unchanged. -/
theorem unknown_mouse_event_rejected (w : World) (mouse_event : List Char)
    (lua_callback : Int) (hname : mouse_event ≠ DoubleClick) :
    hermit_mouse_bind w mouse_event lua_callback = w ∧
    hermit_mouse_unbind w mouse_event = w :=
  ⟨mouse_bind_unknown w mouse_event lua_callback (mouse_event_type_unknown mouse_event hname),
   mouse_unbind_unknown w mouse_event (mouse_event_type_unknown mouse_event hname)⟩

/-- Witness of C15: the name "doubleclick", in lower case, is not in the table;
binding it and unbinding it leave the state `demoMouseWorld` as it is. -/
theorem unknown_mouse_event_rejected_witness :
    hermit_mouse_bind demoMouseWorld
        ['d', 'o', 'u', 'b', 'l', 'e', 'c', 'l', 'i', 'c', 'k'] 41 = demoMouseWorld ∧
    hermit_mouse_unbind demoMouseWorld
        ['d', 'o', 'u', 'b', 'l', 'e', 'c', 'l', 'i', 'c', 'k'] = demoMouseWorld :=
  unknown_mouse_event_rejected demoMouseWorld
    ['d', 'o', 'u', 'b', 'l', 'e', 'c', 'l', 'i', 'c', 'k'] 41 (by decide)

/-! ## Uniqueness of mouse event types -/

theorem keys_bind_mouse_bindings (P : Platform) (w : World) (keybinding : List Char)
    (lua_callback : Int) :
    (hermit_keys_bind P w keybinding lua_callback).configs.mouse_bindings =
      w.configs.mouse_bindings := by
  unfold hermit_keys_bind
  simp only
  split
  · rfl
  · split
    · rfl
    · split <;> rfl

theorem keys_unbind_mouse_bindings (w : World) (keybinding : List Char) :
    (hermit_keys_unbind w keybinding).configs.mouse_bindings = w.configs.mouse_bindings := by
  unfold hermit_keys_unbind
  simp only
  split
  · rfl
  · split <;> rfl

theorem apply_op_mouse_small (P : Platform) (w : World) (op : Op)
    (h : w.configs.mouse_bindings.length ≤ 1 ∧
      ∀ mb ∈ w.configs.mouse_bindings, mb.type = GDK_2BUTTON_PRESS) :
    (apply_op P w op).configs.mouse_bindings.length ≤ 1 ∧
      ∀ mb ∈ (apply_op P w op).configs.mouse_bindings, mb.type = GDK_2BUTTON_PRESS := by
  cases op with
  | keys_bind n cb => simp only [apply_op, keys_bind_mouse_bindings]; exact h
  | keys_unbind n => simp only [apply_op, keys_unbind_mouse_bindings]; exact h
  | mouse_bind e cb =>
    simp only [apply_op]
    by_cases hknown : get_mouse_event_type (some e) = GDK_NOTHING
    · rw [mouse_bind_unknown w e cb hknown]; exact h
    · have htype := mouse_event_type_known e hknown
      by_cases habs : ∀ mb ∈ w.configs.mouse_bindings,
          mb.type ≠ get_mouse_event_type (some e)
      · have hnil : w.configs.mouse_bindings = [] := by
          cases hl : w.configs.mouse_bindings with
          | nil => rfl
          | cons mb rest =>
            have hmem : mb ∈ w.configs.mouse_bindings := by rw [hl]; exact List.mem_cons_self _ _
            exact absurd ((h.2 mb hmem).trans htype.symm) (habs mb hmem)
        rw [mouse_bind_absent w e cb hknown habs, hnil, htype]
        simp
      · have hex : ∃ mb ∈ w.configs.mouse_bindings,
            mb.type = get_mouse_event_type (some e) := by
          by_contra hne
          exact habs (fun mb hmb hn => hne ⟨mb, hmb, hn⟩)
        obtain ⟨pre, mb, post, hl, hpre, hmb⟩ := exists_type_split _ _ hex
        rw [mouse_bind_present w e cb pre post mb hknown hl hpre hmb]
        rw [hl] at h
        refine ⟨by simpa using h.1, ?_⟩
        intro x hx
        simp only [List.mem_append, List.mem_cons] at hx
        rcases hx with hx | rfl | hx
        · exact h.2 x (by simp [hx])
        · exact htype
        · exact h.2 x (by simp [hx])
  | mouse_unbind e =>
    simp only [apply_op]
    by_cases hknown : get_mouse_event_type (some e) = GDK_NOTHING
    · rw [mouse_unbind_unknown w e hknown]; exact h
    · by_cases habs : ∀ mb ∈ w.configs.mouse_bindings,
          mb.type ≠ get_mouse_event_type (some e)
      · rw [mouse_unbind_absent w e habs]; exact h
      · have hex : ∃ mb ∈ w.configs.mouse_bindings,
            mb.type = get_mouse_event_type (some e) := by
          by_contra hne
          exact habs (fun mb hmb hn => hne ⟨mb, hmb, hn⟩)
        obtain ⟨pre, mb, post, hl, hpre, hmb⟩ := exists_type_split _ _ hex
        rw [mouse_unbind_present w e pre post mb hknown hl hpre hmb]
        rw [hl] at h
        refine ⟨?_, ?_⟩
        · have h1 := h.1
          simp only [List.length_append, List.length_cons] at h1 ⊢
          omega
        · intro x hx
          simp only [List.mem_append] at hx
          rcases hx with hx | hx
          · exact h.2 x (by simp [hx])
          · exact h.2 x (by simp [hx])

theorem run_ops_mouse_small (P : Platform) (w : World) (ops : List Op)
    (h : w.configs.mouse_bindings.length ≤ 1 ∧
      ∀ mb ∈ w.configs.mouse_bindings, mb.type = GDK_2BUTTON_PRESS) :
    (run_ops P w ops).configs.mouse_bindings.length ≤ 1 ∧
      ∀ mb ∈ (run_ops P w ops).configs.mouse_bindings, mb.type = GDK_2BUTTON_PRESS := by
  induction ops generalizing w with
  | nil => exact h
  | cons op rest ih => exact ih (apply_op P w op) (apply_op_mouse_small P w op h)

/-- C16. Mouse event types are unique: in the mouse registry reached from the empty
registry by any sequence of bind and unbind calls (mouse calls, and key calls as
well) no two bindings have the same event type; every binding has the type of the
single table row DoubleClick, so the registry holds at most one binding. -/
theorem mouse_types_unique (P : Platform) (policy : HermitKbPolicy) (ops : List Op) :
    ((run_ops P (emptyWorld policy) ops).configs.mouse_bindings.map
      (fun mb => mb.type)).Nodup ∧
    (∀ mb ∈ (run_ops P (emptyWorld policy) ops).configs.mouse_bindings,
      mb.type = GDK_2BUTTON_PRESS) ∧
    (run_ops P (emptyWorld policy) ops).configs.mouse_bindings.length ≤ 1 := by
  have h := run_ops_mouse_small P (emptyWorld policy) ops
    ⟨by simp [emptyWorld], by simp [emptyWorld]⟩
  refine ⟨?_, h.2, h.1⟩
  cases hl : (run_ops P (emptyWorld policy) ops).configs.mouse_bindings with
  | nil => simp
  | cons mb rest =>
    have h1 := h.1
    rw [hl] at h1
    have : rest = [] := List.length_eq_zero.mp (by simpa using h1)
    simp [this]

/-! ## A single press and the DoubleClick binding -/

/-- C20. The DoubleClick binding fires for an event that is not a double click: a
button press (type 4) differs from the double-click type (5), their bitwise AND is
not zero, and `hermit_mouse_event` for a button press on a registry that contains a
binding of the double-click type runs that binding's callback and returns FALSE. -/
theorem double_click_binding_fires_on_press (w : World) (mb : MouseBinding)
    (hmem : mb ∈ w.configs.mouse_bindings) (htype : mb.type = GDK_2BUTTON_PRESS) :
    GDK_BUTTON_PRESS ≠ GDK_2BUTTON_PRESS ∧
    Int.land GDK_BUTTON_PRESS GDK_2BUTTON_PRESS ≠ 0 ∧
    ∃ fired : List Int,
      hermit_mouse_event w { type := GDK_BUTTON_PRESS } =
        (false, { w with invoked := w.invoked ++ fired }) ∧
      mb.lua_callback ∈ fired := by
  refine ⟨by decide, by decide,
    (w.configs.mouse_bindings.filter
      (fun x => decide (Int.land GDK_BUTTON_PRESS x.type ≠ 0))).map (fun x => x.lua_callback),
    ?_, ?_⟩
  · simp only [hermit_mouse_event, mouse_event_from_eq]
  · refine List.mem_map.mpr ⟨mb, List.mem_filter.mpr ⟨hmem, ?_⟩, rfl⟩
    rw [htype]
    decide

/-- Witness of C20: after binding DoubleClick to 7 on the empty registries, a single
button press runs 7. -/
theorem double_click_binding_fires_on_press_witness :
    hermit_mouse_event
        (hermit_mouse_bind (emptyWorld .HermitKbUseKeysym) DoubleClick 7)
        { type := GDK_BUTTON_PRESS } =
      (false, { hermit_mouse_bind (emptyWorld .HermitKbUseKeysym) DoubleClick 7 with
          invoked := [7] }) ∧
    ∃ fired : List Int,
      hermit_mouse_event
          (hermit_mouse_bind (emptyWorld .HermitKbUseKeysym) DoubleClick 7)
          { type := GDK_BUTTON_PRESS } =
        (false, { hermit_mouse_bind (emptyWorld .HermitKbUseKeysym) DoubleClick 7 with
            invoked := (hermit_mouse_bind (emptyWorld .HermitKbUseKeysym)
              DoubleClick 7).invoked ++ fired }) ∧
      (7 : Int) ∈ fired :=
  ⟨by decide,
   (double_click_binding_fires_on_press
      (hermit_mouse_bind (emptyWorld .HermitKbUseKeysym) DoubleClick 7)
      { type := GDK_2BUTTON_PRESS, lua_callback := 7 } (by decide) rfl).2.2⟩

/-! ## The empty modifier chain -/

theorem loop_result_pos (fuel : Nat) (token : List Char) (i state : Nat)
    (h : get_modifier_state_loop fuel token i state ≠ GDK_NOTHING) :
    0 < get_modifier_state_loop fuel token i state := by
  induction fuel generalizing token i state with
  | zero => simp [get_modifier_state_loop] at h
  | succ fuel ih =>
    unfold get_modifier_state_loop at h ⊢
    by_cases hlen : token.length > 0
    · simp only [hlen, if_true] at h ⊢
      by_cases hstep : (get_modifier_state_scan token (hermit_modifiers.drop i) i).2.2 = 0
      · simp [hstep] at h
      · simp only [hstep, if_false] at h ⊢
        exact ih _ _ _ h
    · simp only [hlen, if_false] at h ⊢
      by_cases hs : state = 0
      · simp [hs] at h
      · simp only [hs, if_false]
        omega

/-- Counterexample to C17: "w" resolves on `demoPlatform`, and the descriptor "-w",
an empty modifier chain followed by that key name, is rejected with -1. -/
theorem empty_chain_accepted_counterexample :
    ¬ (∀ (P : Platform) (k : List Char),
        P.gdk_keyval_from_name k ≠ GDK_KEY_VoidSymbol →
        (hermit_parse_keys_str P ('-' :: k) { state := 0, keyval := 0 }).1 = 0 ∧
        (hermit_parse_keys_str P ('-' :: k) { state := 0, keyval := 0 }).2.state = 0) := by
  intro h
  have h1 := (h demoPlatform ['w'] (by decide)).1
  revert h1
  decide

/-- C17 (amended). A modifier chain of zero modifier names is rejected:
`get_modifier_state` returns GDK_NOTHING for the empty chain text, so for every key
name k, resolving or not, parsing "-" followed by k returns -1 and leaves `*kws`
untouched; a successful parse of a descriptor that contains a '-' never yields an
empty required modifier state. -/
theorem empty_chain_rejected (P : Platform) (k : List Char) (kws : KeyWithState) :
    get_modifier_state (some []) = GDK_NOTHING ∧
    hermit_parse_keys_str P ('-' :: k) kws = (-1, kws) ∧
    (∀ n : List Char, '-' ∈ n → (hermit_parse_keys_str P n kws).1 = 0 →
      (hermit_parse_keys_str P n kws).2.state ≠ 0) := by
  refine ⟨rfl, ?_, ?_⟩
  · have h := parse_dash P [] k kws (by simp)
    rw [List.nil_append] at h
    rw [h]
    exact if_pos rfl
  · intro n hd hok
    obtain ⟨mods, key, rfl, hm⟩ := exists_dash_split n hd
    rw [parse_dash P mods key kws hm] at hok ⊢
    split at hok
    · simp at hok
    · split at hok
      · simp at hok
      · rename_i h1 h2
        rw [if_neg h1, if_neg h2]
        have hpos := loop_result_pos _ mods 0 0 h1
        have : 0 < get_modifier_state (some mods) := hpos
        simp only
        omega

/-- Witness of C17 (amended) on `demoPlatform`: "-w" is rejected, and "Ctrl-t",
which contains a '-' and parses, has a required state that is not empty. -/
theorem empty_chain_rejected_witness :
    hermit_parse_keys_str demoPlatform ['-', 'w'] { state := 0, keyval := 0 } =
      (-1, { state := 0, keyval := 0 }) ∧
    (hermit_parse_keys_str demoPlatform ['C', 't', 'r', 'l', '-', 't']
      { state := 0, keyval := 0 }).2.state ≠ 0 :=
  ⟨(empty_chain_rejected demoPlatform ['w'] { state := 0, keyval := 0 }).2.1,
   (empty_chain_rejected demoPlatform ['w'] { state := 0, keyval := 0 }).2.2
     ['C', 't', 'r', 'l', '-', 't'] (by decide) (by decide)⟩

/-! ## Order of the key registry -/

theorem getElem?_replace_other (pre post : List KeyBinding) (kb kb2 x : KeyBinding) (i : Nat)
    (hi : (pre ++ kb :: post)[i]? = some x) (hne : x ≠ kb) :
    (pre ++ kb2 :: post)[i]? = some x := by
  rcases Nat.lt_trichotomy i pre.length with hlt | heq | hgt
  · rw [List.getElem?_append_left hlt] at hi ⊢
    exact hi
  · subst heq
    rw [List.getElem?_append_right (Nat.le_refl _)] at hi
    simp at hi
    exact absurd hi.symm hne
  · rw [List.getElem?_append_right (Nat.le_of_lt hgt)] at hi ⊢
    obtain ⟨k, hk⟩ : ∃ k, i - pre.length = k + 1 := ⟨i - pre.length - 1, by omega⟩
    rw [hk] at hi ⊢
    simpa using hi

/-- C18. Registry order is insertion order. For `hermit_keys_bind` with a name not
yet present: when the descriptor parses the new binding is appended at the end and
the earlier entries are unchanged (when it does not parse there is no new binding and
the registry is unchanged). With a name already present every binding keeps its
index: the names are the same position by position and every entry with another
name is unchanged. `hermit_keys_unbind` removes exactly the first binding with the
name and keeps the others in their order, so the result is a sublist of the
registry; with an absent name it changes nothing. -/
theorem registry_order_is_insertion_order (P : Platform) (w : World) (n : List Char)
    (h : Int) :
    ((∀ kb ∈ w.configs.key_bindings, kb.name ≠ n) →
      ((hermit_parse_keys_str P n { state := 0, keyval := 0 }).1 = 0 →
        ∃ kb : KeyBinding, kb.name = n ∧ kb.lua_callback = h ∧
          (hermit_keys_bind P w n h).configs.key_bindings =
            w.configs.key_bindings ++ [kb]) ∧
      ((hermit_parse_keys_str P n { state := 0, keyval := 0 }).1 ≠ 0 →
        (hermit_keys_bind P w n h).configs.key_bindings = w.configs.key_bindings)) ∧
    ((∃ kb ∈ w.configs.key_bindings, kb.name = n) →
      (hermit_keys_bind P w n h).configs.key_bindings.map (fun kb => kb.name) =
        w.configs.key_bindings.map (fun kb => kb.name) ∧
      (hermit_keys_bind P w n h).configs.key_bindings.length =
        w.configs.key_bindings.length ∧
      ∀ (i : Nat) (kb : KeyBinding), w.configs.key_bindings[i]? = some kb → kb.name ≠ n →
        (hermit_keys_bind P w n h).configs.key_bindings[i]? = some kb) ∧
    ((∀ kb ∈ w.configs.key_bindings, kb.name ≠ n) →
      (hermit_keys_unbind w n).configs.key_bindings = w.configs.key_bindings) ∧
    ((∃ kb ∈ w.configs.key_bindings, kb.name = n) →
      ∃ (pre : List KeyBinding) (kb : KeyBinding) (post : List KeyBinding),
        w.configs.key_bindings = pre ++ kb :: post ∧ kb.name = n ∧
        (∀ x ∈ pre, x.name ≠ n) ∧
        (hermit_keys_unbind w n).configs.key_bindings = pre ++ post) ∧
    (hermit_keys_unbind w n).configs.key_bindings.Sublist w.configs.key_bindings := by
  have hunbind_present : (∃ kb ∈ w.configs.key_bindings, kb.name = n) →
      ∃ (pre : List KeyBinding) (kb : KeyBinding) (post : List KeyBinding),
        w.configs.key_bindings = pre ++ kb :: post ∧ kb.name = n ∧
        (∀ x ∈ pre, x.name ≠ n) ∧
        (hermit_keys_unbind w n).configs.key_bindings = pre ++ post := by
    intro hex
    obtain ⟨pre, kb, post, hl, hpre, hkb⟩ := exists_name_split n _ hex
    exact ⟨pre, kb, post, hl, hkb, hpre,
      by rw [keys_unbind_present w n pre post kb hl hpre hkb]⟩
  refine ⟨?_, ?_, ?_, hunbind_present, ?_⟩
  · intro habs
    constructor
    · intro hok
      rw [keys_bind_absent P w n h hok habs]
      exact ⟨_, rfl, rfl, rfl⟩
    · intro hfail
      rcases parse_rc P n { state := 0, keyval := 0 } with hf | hok
      · rw [bind_of_parse_fail P w n h (by rw [hf])]
      · exact absurd hok hfail
  · intro hex
    rcases parse_rc P n { state := 0, keyval := 0 } with hf | hok
    · rw [bind_of_parse_fail P w n h (by rw [hf])]
      exact ⟨rfl, rfl, fun i kb hi _ => hi⟩
    · obtain ⟨pre, kb, post, hl, hpre, hkb⟩ := exists_name_split n _ hex
      rw [keys_bind_present P w n h pre post kb hok hl hpre hkb, hl]
      refine ⟨by simp, by simp, ?_⟩
      intro i x hi hx
      exact getElem?_replace_other pre post kb _ x i hi (fun e => hx (by rw [e, hkb]))
  · intro habs
    rw [keys_unbind_absent w n habs]
  · by_cases habs : ∀ kb ∈ w.configs.key_bindings, kb.name ≠ n
    · rw [keys_unbind_absent w n habs]
    · have hex : ∃ kb ∈ w.configs.key_bindings, kb.name = n := by
        by_contra hne
        exact habs (fun kb hkb hn => hne ⟨kb, hkb, hn⟩)
      obtain ⟨pre, kb, post, hl, _, _, hres⟩ := hunbind_present hex
      rw [hres, hl]
      exact List.Sublist.append_left (List.sublist_cons_self _ _) _

/-- Witness of C18 on `demoPlatform`: binding "w" after "Ctrl-t" puts it second,
rebinding "Ctrl-t" keeps it first, and unbinding "Ctrl-t" leaves "w". -/
theorem registry_order_is_insertion_order_witness :
    (hermit_keys_bind demoPlatform (worldOf .HermitKbUseKeysym [ctrl_t_binding])
        ['w'] 12).configs.key_bindings.map (fun kb => kb.name) =
      [['C', 't', 'r', 'l', '-', 't'], ['w']] ∧
    (hermit_keys_bind demoPlatform
        (hermit_keys_bind demoPlatform (worldOf .HermitKbUseKeysym [ctrl_t_binding]) ['w'] 12)
        ['C', 't', 'r', 'l', '-', 't'] 13).configs.key_bindings.map (fun kb => kb.name) =
      [['C', 't', 'r', 'l', '-', 't'], ['w']] ∧
    (hermit_keys_unbind
        (hermit_keys_bind demoPlatform (worldOf .HermitKbUseKeysym [ctrl_t_binding]) ['w'] 12)
        ['C', 't', 'r', 'l', '-', 't']).configs.key_bindings.map (fun kb => kb.name) =
      [['w']] := by
  have h1 := (registry_order_is_insertion_order demoPlatform
    (hermit_keys_bind demoPlatform (worldOf .HermitKbUseKeysym [ctrl_t_binding]) ['w'] 12)
    ['C', 't', 'r', 'l', '-', 't'] 13).2.1 ⟨ctrl_t_binding, by decide, rfl⟩
  exact ⟨by decide, by rw [h1.1]; decide, by decide⟩

/-! ## The acceptance set of `get_modifier_state` -/

theorem scan_split (token : List Char) (pre post : List HermitModifier) (m : HermitModifier)
    (i : Nat) (hpre : ∀ x ∈ pre, ¬ x.name <+: token) (hm : m.name <+: token) :
    get_modifier_state_scan token (pre ++ m :: post) i =
      (i + pre.length, m.state, m.name.length) := by
  induction pre generalizing i with
  | nil =>
    simp [get_modifier_state_scan, List.isPrefixOf_iff_prefix.mpr hm]
  | cons x rest ih =>
    have hx : ¬ (x.name.isPrefixOf token = true) := fun e =>
      hpre x (List.mem_cons_self _ _) (List.isPrefixOf_iff_prefix.mp e)
    show get_modifier_state_scan token (x :: (rest ++ m :: post)) i = _
    rw [get_modifier_state_scan, if_neg hx,
      ih (i + 1) (fun y hy => hpre y (List.mem_cons_of_mem _ hy))]
    simp only [List.length_cons, Prod.mk.injEq, and_true]
    omega

theorem scan_index (token : List Char) (rows : List HermitModifier) (i : Nat)
    (h : (get_modifier_state_scan token rows i).2.2 ≠ 0) :
    ∃ (k : Nat) (m : HermitModifier), rows[k]? = some m ∧ m.name <+: token ∧
      get_modifier_state_scan token rows i = (i + k, m.state, m.name.length) := by
  induction rows generalizing i with
  | nil => simp [get_modifier_state_scan] at h
  | cons m rest ih =>
    unfold get_modifier_state_scan at h ⊢
    by_cases hp : m.name.isPrefixOf token = true
    · simp only [hp, if_true]
      exact ⟨0, m, by simp, List.isPrefixOf_iff_prefix.mp hp, rfl⟩
    · simp only [hp] at h ⊢
      obtain ⟨k, x, hx, hpre, heq⟩ := ih (i + 1) h
      refine ⟨k + 1, x, by simpa using hx, hpre, ?_⟩
      rw [heq]
      simp only [Bool.false_eq_true, if_false, Prod.mk.injEq, and_true]
      omega

theorem modifier_names_incomparable :
    ∀ a ∈ hermit_modifiers, ∀ b ∈ hermit_modifiers, a.name <+: b.name → a = b := by
  decide

theorem modifier_rows_nodup : hermit_modifiers.Nodup := by decide

theorem modifier_rows_proper :
    ∀ a ∈ hermit_modifiers, a.name ≠ [] ∧ a.state ≠ 0 := by
  decide

theorem modifier_at_mem (j : Nat) (hj : j < HermitModsSz) :
    modifier_at j ∈ hermit_modifiers ∧ hermit_modifiers[j]? = some (modifier_at j) := by
  have hj2 : j < hermit_modifiers.length := hj
  have h : hermit_modifiers[j]? = some (modifier_at j) := by
    unfold modifier_at
    rw [List.getD_eq_getElem?_getD, List.getElem?_eq_getElem hj2]
    rfl
  exact ⟨List.getElem?_mem h, h⟩

theorem prefix_row_unique (token : List Char) (a b : HermitModifier)
    (ha : a ∈ hermit_modifiers) (hb : b ∈ hermit_modifiers)
    (hpa : a.name <+: token) (hpb : b.name <+: token) : a = b := by
  rcases Nat.le_total a.name.length b.name.length with hle | hle
  · exact modifier_names_incomparable a ha b hb (List.prefix_of_prefix_length_le hpa hpb hle)
  · exact (modifier_names_incomparable b hb a ha
      (List.prefix_of_prefix_length_le hpb hpa hle)).symm

theorem scan_table (token : List Char) (i j : Nat) (hij : i ≤ j) (hj : j < HermitModsSz)
    (hp : (modifier_at j).name <+: token) :
    get_modifier_state_scan token (hermit_modifiers.drop i) i =
      (j, (modifier_at j).state, (modifier_at j).name.length) := by
  have hj2 : j < hermit_modifiers.length := hj
  obtain ⟨hmem, hget⟩ := modifier_at_mem j hj
  have hat : hermit_modifiers[j] = modifier_at j := by
    rw [List.getElem?_eq_getElem hj2] at hget
    exact Option.some.inj hget
  have hdrop : hermit_modifiers.drop j = modifier_at j :: hermit_modifiers.drop (j + 1) := by
    rw [List.drop_eq_getElem_cons hj2, hat]
  have hsplit : hermit_modifiers.drop i =
      (hermit_modifiers.drop i).take (j - i) ++
        modifier_at j :: hermit_modifiers.drop (j + 1) := by
    have h1 := (List.take_append_drop (j - i) (hermit_modifiers.drop i)).symm
    rw [List.drop_drop, show i + (j - i) = j by omega, hdrop] at h1
    exact h1
  have hlen : ((hermit_modifiers.drop i).take (j - i)).length = j - i := by
    rw [List.length_take, List.length_drop]
    omega
  have hnd : (hermit_modifiers.drop i).Nodup :=
    List.Nodup.sublist (List.drop_sublist i _) modifier_rows_nodup
  rw [hsplit] at hnd
  have hpre : ∀ x ∈ (hermit_modifiers.drop i).take (j - i), ¬ x.name <+: token := by
    intro x hx hpx
    have hxm : x ∈ hermit_modifiers := List.mem_of_mem_drop (List.mem_of_mem_take hx)
    have hxe : x = modifier_at j := prefix_row_unique token x _ hxm hmem hpx hp
    exact (List.nodup_append.mp hnd).2.2 hx (by rw [hxe]; exact List.mem_cons_self _ _)
  have hres := scan_split token _ (hermit_modifiers.drop (j + 1)) (modifier_at j) i hpre hp
  rw [← hsplit, hlen] at hres
  rw [hres]
  simp only [Prod.mk.injEq, and_true]
  omega

theorem chain_text_cons (j : Nat) (rest : List Nat) :
    chain_text (j :: rest) = (modifier_at j).name ++ chain_text rest := by
  simp [chain_text]

theorem chain_mask_cons (j : Nat) (rest : List Nat) :
    chain_mask (j :: rest) = (modifier_at j).state ||| chain_mask rest := by
  simp [chain_mask]

/-- On an ordered chain whose indices are not below the current table index, the
loop ends with the accumulated state joined with the masks of the chain. -/
theorem loop_accepts (idxs : List Nat) (fuel i state : Nat)
    (hfuel : (chain_text idxs).length < fuel)
    (hrange : ∀ j ∈ idxs, i ≤ j ∧ j < HermitModsSz)
    (hsorted : idxs.Pairwise (fun a b => a ≤ b)) :
    get_modifier_state_loop fuel (chain_text idxs) i state =
      if state ||| chain_mask idxs = 0 then GDK_NOTHING
      else ((state ||| chain_mask idxs : Nat) : Int) := by
  induction idxs generalizing fuel i state with
  | nil =>
    cases fuel with
    | zero => omega
    | succ f => simp [get_modifier_state_loop, chain_text, chain_mask]
  | cons j rest ih =>
    cases fuel with
    | zero => omega
    | succ f =>
      obtain ⟨hij, hj⟩ := hrange j (List.mem_cons_self _ _)
      have hproper := modifier_rows_proper _ (modifier_at_mem j hj).1
      have hnamelen : 0 < (modifier_at j).name.length :=
        List.length_pos.mpr hproper.1
      rw [chain_text_cons] at hfuel ⊢
      rw [List.length_append] at hfuel
      have hscan := scan_table ((modifier_at j).name ++ chain_text rest) i j hij hj
        (List.prefix_append _ _)
      unfold get_modifier_state_loop
      rw [if_pos (by rw [List.length_append]; omega), hscan]
      simp only
      rw [if_neg (by omega), List.drop_left]
      have hrest : ∀ k ∈ rest, j ≤ k ∧ k < HermitModsSz := fun k hk =>
        ⟨(List.pairwise_cons.mp hsorted).1 k hk, (hrange k (List.mem_cons_of_mem _ hk)).2⟩
      rw [ih f j (state ||| (modifier_at j).state) (by omega) hrest
        (List.pairwise_cons.mp hsorted).2, chain_mask_cons, Nat.lor_assoc]

/-- A text on which the loop succeeds is an ordered chain of rows at or after the
current table index; it is non-empty unless a state was already accumulated. -/
theorem loop_sound (fuel : Nat) (token : List Char) (i state : Nat)
    (h : get_modifier_state_loop fuel token i state ≠ GDK_NOTHING) :
    ∃ idxs : List Nat, (∀ j ∈ idxs, i ≤ j ∧ j < HermitModsSz) ∧
      idxs.Pairwise (fun a b => a ≤ b) ∧ chain_text idxs = token ∧
      (idxs ≠ [] ∨ state ≠ 0) := by
  induction fuel generalizing token i state with
  | zero => simp [get_modifier_state_loop] at h
  | succ fuel ih =>
    unfold get_modifier_state_loop at h
    by_cases hlen : token.length > 0
    · simp only [hlen, if_true] at h
      by_cases hstep : (get_modifier_state_scan token (hermit_modifiers.drop i) i).2.2 = 0
      · simp [hstep] at h
      · simp only [hstep, if_false] at h
        obtain ⟨k, m, hk, hpre, hscan⟩ := scan_index token _ i hstep
        rw [hscan] at h
        simp only at h
        rw [List.getElem?_drop] at hk
        have hlt : i + k < hermit_modifiers.length := by
          by_contra hge
          rw [List.getElem?_eq_none (by omega)] at hk
          exact Option.noConfusion hk
        have hm : modifier_at (i + k) = m := by
          have h2 := (modifier_at_mem (i + k) hlt).2
          rw [hk] at h2
          exact (Option.some.inj h2).symm
        obtain ⟨idxs, hrange, hsorted, htext, _⟩ := ih _ _ _ h
        refine ⟨(i + k) :: idxs, ?_, ?_, ?_, Or.inl (by simp)⟩
        · intro j hjm
          rcases List.mem_cons.mp hjm with rfl | hjm
          · exact ⟨Nat.le_add_right _ _, hlt⟩
          · exact ⟨Nat.le_trans (Nat.le_add_right _ _) (hrange j hjm).1, (hrange j hjm).2⟩
        · exact List.pairwise_cons.mpr ⟨fun j hjm => (hrange j hjm).1, hsorted⟩
        · obtain ⟨t, ht⟩ := hpre
          rw [chain_text_cons, htext, hm, ← ht, List.drop_left]
    · simp only [hlen, if_false] at h
      have htok : token = [] := List.length_eq_zero.mp (by omega)
      refine ⟨[], by simp, List.Pairwise.nil, by simp [chain_text, htok], Or.inr ?_⟩
      intro hs
      simp [hs] at h

theorem lor_eq_zero_left (a b : Nat) (h : a ||| b = 0) : a = 0 := by
  apply Nat.eq_of_testBit_eq
  intro k
  have hk := congrArg (fun x => x.testBit k) h
  simp only [Nat.testBit_or, Nat.zero_testBit, Bool.or_eq_false_iff] at hk ⊢
  exact hk.1

theorem chain_mask_pos (idxs : List Nat) (hne : idxs ≠ [])
    (hrange : ∀ j ∈ idxs, j < HermitModsSz) : chain_mask idxs ≠ 0 := by
  cases idxs with
  | nil => exact absurd rfl hne
  | cons j rest =>
    rw [chain_mask_cons]
    intro h0
    exact (modifier_rows_proper _
      (modifier_at_mem j (hrange j (List.mem_cons_self _ _))).1).2 (lor_eq_zero_left _ _ h0)

theorem get_modifier_state_ordered (idxs : List Nat) (hne : idxs ≠ [])
    (hrange : ∀ j ∈ idxs, j < HermitModsSz)
    (hsorted : idxs.Pairwise (fun a b => a ≤ b)) :
    get_modifier_state (some (chain_text idxs)) = ((chain_mask idxs : Nat) : Int) := by
  unfold get_modifier_state
  simp only
  rw [loop_accepts idxs _ 0 0 (Nat.lt_succ_self _)
    (fun j hj => ⟨Nat.zero_le _, hrange j hj⟩) hsorted, Nat.zero_or,
    if_neg (chain_mask_pos idxs hne hrange)]

/-- C19. The acceptance set of `get_modifier_state`: on a non-empty concatenation of
modifier names whose table indices do not decrease from left to right it returns the
bitwise OR of their masks, which is not the failure sentinel; it succeeds on a text
if and only if the text is such a concatenation; for the empty text and for
"ShiftCtrl", whose names are both in the table but out of table order, it returns
GDK_NOTHING. -/
theorem modifier_state_acceptance_set :
    (∀ idxs : List Nat, idxs ≠ [] → (∀ j ∈ idxs, j < HermitModsSz) →
      idxs.Pairwise (fun a b => a ≤ b) →
      get_modifier_state (some (chain_text idxs)) = ((chain_mask idxs : Nat) : Int) ∧
      get_modifier_state (some (chain_text idxs)) ≠ GDK_NOTHING) ∧
    (∀ c : List Char, get_modifier_state (some c) ≠ GDK_NOTHING ↔ IsOrderedChain c) ∧
    get_modifier_state (some []) = GDK_NOTHING ∧
    IsModifierChain ['S', 'h', 'i', 'f', 't', 'C', 't', 'r', 'l'] ∧
    get_modifier_state (some ['S', 'h', 'i', 'f', 't', 'C', 't', 'r', 'l']) = GDK_NOTHING := by
  have hacc : ∀ idxs : List Nat, idxs ≠ [] → (∀ j ∈ idxs, j < HermitModsSz) →
      idxs.Pairwise (fun a b => a ≤ b) →
      get_modifier_state (some (chain_text idxs)) = ((chain_mask idxs : Nat) : Int) ∧
      get_modifier_state (some (chain_text idxs)) ≠ GDK_NOTHING := by
    intro idxs hne hrange hsorted
    have h := get_modifier_state_ordered idxs hne hrange hsorted
    refine ⟨h, ?_⟩
    rw [h]
    unfold GDK_NOTHING
    omega
  refine ⟨hacc, ?_, rfl, ?_, by decide⟩
  · intro c
    constructor
    · intro h
      obtain ⟨idxs, hrange, hsorted, htext, hne⟩ := loop_sound _ c 0 0 h
      refine ⟨idxs, ?_, fun j hj => (hrange j hj).2, hsorted, htext⟩
      rcases hne with hne | hne
      · exact hne
      · exact absurd rfl hne
    · rintro ⟨idxs, hne, hrange, hsorted, rfl⟩
      exact (hacc idxs hne hrange hsorted).2
  · refine ⟨[['S', 'h', 'i', 'f', 't'], ['C', 't', 'r', 'l']], ?_, rfl⟩
    intro n hn
    simp only [List.mem_cons, List.mem_singleton, List.not_mem_nil, or_false] at hn
    rcases hn with rfl | rfl <;> decide

/-- Witness of C19: "CtrlShiftShift" (indices 1, 2, 2) is accepted with the state
Ctrl|Shift. -/
theorem modifier_state_acceptance_set_witness :
    get_modifier_state
        (some ['C', 't', 'r', 'l', 'S', 'h', 'i', 'f', 't', 'S', 'h', 'i', 'f', 't']) =
      ((GDK_CONTROL_MASK ||| GDK_SHIFT_MASK : Nat) : Int) :=
  (modifier_state_acceptance_set.1 [1, 2, 2] (by decide) (by decide) (by decide)).1

end Hermit
